import Mathlib

/-!
Verification development for the antigravity2claudecode reverse proxy.

We give a shallow embedding, in Lean, of the pieces of the Python source
that the specification's claims are about:

* `src/a2c/core/converter.py` — model mapping, schema sanitising, request
  translation, thinking configuration;
* `src/a2c/core/streaming.py` — the stateful SSE-to-SSE streaming translator;
* `src/a2c/router/rules.py` — routing-rule matching;
* `src/a2c/router/failover.py` — failover-chain construction.

Python/JSON values are modelled by the inductive type `JVal` below.  Python
`dict`s are modelled as association lists in insertion order, with the
insert-or-update operation `dinsert` reproducing Python's in-place update
semantics (updating an existing key keeps its position, a fresh key is
appended).  Machine integers are `Int` (Python ints are unbounded), Python
floats are modelled as exact rationals (no claim depends on float rounding
or rendering).  Fallible code paths (places where the Python raises) are
modelled with `Except`.
-/

set_option maxHeartbeats 1000000

/-- A Python/JSON value.  `int` and `float` are separate constructors because
Python distinguishes them (`isinstance(x, int)` checks, `json` parsing).
Python `bool` is a subclass of `int`; the conversion helpers below account
for that. -/
inductive JVal where
  | null : JVal
  | bool (b : Bool) : JVal
  | int (n : Int) : JVal
  | float (q : Rat) : JVal
  | str (s : String) : JVal
  | arr (xs : List JVal) : JVal
  | obj (fields : List (String × JVal)) : JVal

namespace JVal

/-- Python truthiness: `bool(x)`. -/
def truthy : JVal → Bool
  | .null => false
  | .bool b => b
  | .int n => n != 0
  | .float q => q != 0
  | .str s => s ≠ ""
  | .arr xs => !xs.isEmpty
  | .obj fs => !fs.isEmpty

/-- Is this value a Python `dict`? (`isinstance(x, dict)`). -/
def isObj : JVal → Bool
  | .obj _ => true
  | _ => false

/-- Is this value a Python `list`? (`isinstance(x, list)`). -/
def isArr : JVal → Bool
  | .arr _ => true
  | _ => false

/-- Is this value a Python `str`? -/
def isStr : JVal → Bool
  | .str _ => true
  | _ => false

/-- `isinstance(x, int)` — true for Python ints and bools (bool is a
subclass of int), false for floats. -/
def isIntLike : JVal → Bool
  | .int _ => true
  | .bool _ => true
  | _ => false

/-- The numeric value of an int-like Python value. -/
def intLikeVal : JVal → Int
  | .int n => n
  | .bool b => if b then 1 else 0
  | _ => 0

end JVal

/-- Key membership in a Python dict (`k in d`).  The source dicts come from
parsed JSON and have unique keys; on association lists with duplicate keys
this tests the first occurrence like every other operation here. -/
def dhas (fs : List (String × JVal)) (k : String) : Bool :=
  fs.any (fun p => p.1 == k)

/-- `d.get(k, default)`. -/
def dget (fs : List (String × JVal)) (k : String) (default : JVal) : JVal :=
  match fs.find? (fun p => p.1 == k) with
  | some p => p.2
  | none => default

/-- Python dict insert-or-update `d[k] = v`: updating an existing key keeps
its position, a fresh key is appended at the end. -/
def dinsert (fs : List (String × JVal)) (k : String) (v : JVal) :
    List (String × JVal) :=
  match fs with
  | [] => [(k, v)]
  | (k', v') :: rest =>
      if k' = k then (k, v) :: rest else (k', v') :: dinsert rest k v

/-- Python `x or default` specialised to "replace falsy values". -/
def orElseJ (v : JVal) (default : JVal) : JVal :=
  if v.truthy then v else default

mutual

/-- Python `repr(x)`.  Escaping of quotes inside strings and the decimal
rendering of floats are not modelled — no claim depends on the rendering of
such values. -/
def pyRepr : JVal → String
  | .null => "None"
  | .bool b => if b then "True" else "False"
  | .int n => toString n
  | .float q => toString q
  | .str s => "'" ++ s ++ "'"
  | .arr xs => "[" ++ pyReprList xs ++ "]"
  | .obj fs => "\x7b" ++ pyReprFields fs ++ "\x7d"

def pyReprList : List JVal → String
  | [] => ""
  | [x] => pyRepr x
  | x :: rest => pyRepr x ++ ", " ++ pyReprList rest

def pyReprFields : List (String × JVal) → String
  | [] => ""
  | [(k, v)] => "'" ++ k ++ "': " ++ pyRepr v
  | (k, v) :: rest => "'" ++ k ++ "': " ++ pyRepr v ++ ", " ++ pyReprFields rest

end

/-- Python `str(x)` (also `f"{x}"`): like `repr` except that a top-level
string renders as itself, unquoted. -/
def pyStr : JVal → String
  | .null => "None"
  | .bool b => if b then "True" else "False"
  | .int n => toString n
  | .float q => toString q
  | .str s => s
  | .arr xs => "[" ++ pyReprList xs ++ "]"
  | .obj fs => "\x7b" ++ pyReprFields fs ++ "\x7d"

mutual

/-- `json.dumps(x, ensure_ascii=False, separators=(",", ":"))` on
containers.  String escaping is not modelled — no claim depends on it. -/
def jdumpInner : JVal → String
  | .null => "null"
  | .bool b => if b then "true" else "false"
  | .int n => toString n
  | .float q => toString q
  | .str s => "\"" ++ s ++ "\""
  | .arr xs => "[" ++ jdumpList xs ++ "]"
  | .obj fs => "\x7b" ++ jdumpFields fs ++ "\x7d"

def jdumpList : List JVal → String
  | [] => ""
  | [x] => jdumpInner x
  | x :: rest => jdumpInner x ++ "," ++ jdumpList rest

def jdumpFields : List (String × JVal) → String
  | [] => ""
  | [(k, v)] => "\"" ++ k ++ "\":" ++ jdumpInner v
  | (k, v) :: rest => "\"" ++ k ++ "\":" ++ jdumpInner v ++ "," ++ jdumpFields rest

end

/-- `json.dumps(x, ensure_ascii=False, separators=(",", ":"))`. -/
def jdump : JVal → String
  | .null => "null"
  | .bool b => if b then "true" else "false"
  | .int n => toString n
  | .float q => toString q
  | .str s => "\"" ++ s ++ "\""
  | .arr xs => "[" ++ jdumpList xs ++ "]"
  | .obj fs => "\x7b" ++ jdumpFields fs ++ "\x7d"

/-- Python `int(x)`; `none` models a raised exception.  Floats truncate
toward zero; strings parse optionally-signed decimal digits (Python also
strips whitespace and allows underscores, which we do not model — no claim
feeds such strings to `int`). -/
def pyToInt : JVal → Option Int
  | .int n => some n
  | .bool b => some (if b then 1 else 0)
  | .float q => some (if q ≥ 0 then q.floor else q.ceil)
  | .str s => s.toInt?
  | _ => none

/-- The whitespace characters stripped by Python's `str.strip()` (restricted
to ASCII; no claim involves exotic unicode whitespace). -/
def pyIsSpace (c : Char) : Bool :=
  c == ' ' || c == '\t' || c == '\n' || c == '\r' || c == '\x0b' || c == '\x0c'

/-- Python `s.strip()`. -/
def pyStrip (s : String) : String :=
  String.mk (((s.data.dropWhile pyIsSpace).reverse.dropWhile pyIsSpace).reverse)

/-- Python `s.lower()` (ASCII case folding; no claim involves unicode case
folding). -/
def pyLower (s : String) : String :=
  String.mk (s.data.map Char.toLower)

section ModelMapping

/-! ## `map_claude_model_to_gemini` (src/a2c/core/converter.py lines 76-131) -/

/-- The eight-digit date-suffix check of the regex
`^(claude-(?:opus|sonnet|haiku)-4-5)-\d{8}$`: does `s` equal
`p ++ "-" ++ d` for an eight-digit string `d`? -/
def datedForm (p : String) (s : String) : Bool :=
  let pc := p.data ++ ['-']
  let sc := s.data
  decide (sc.take pc.length = pc) &&
    (let rest := sc.drop pc.length
     rest.length == 8 && rest.all Char.isDigit)

/-- The capture group of the version-date regex, when it matches. -/
def datedBase (s : String) : Option String :=
  ["claude-opus-4-5", "claude-sonnet-4-5", "claude-haiku-4-5"].find?
    (fun p => datedForm p s)

/-- The `supported_models` set (converter.py lines 104-117). -/
def supportedModels : List String :=
  ["gemini-2.5-flash", "gemini-2.5-flash-thinking", "gemini-2.5-pro",
   "gemini-3-pro-low", "gemini-3-pro-high", "gemini-3-pro-image",
   "gemini-2.5-flash-lite", "gemini-2.5-flash-image", "claude-sonnet-4-5",
   "claude-sonnet-4-5-thinking", "claude-opus-4-5-thinking",
   "gpt-oss-120b-medium"]

/-- The `model_mapping` alias table (converter.py lines 122-129). -/
def modelMapping : List (String × String) :=
  [("claude-sonnet-4.5", "claude-sonnet-4-5"),
   ("claude-3-5-sonnet-20241022", "claude-sonnet-4-5"),
   ("claude-3-5-sonnet-20240620", "claude-sonnet-4-5"),
   ("claude-opus-4", "gemini-3-pro-high"),
   ("claude-haiku-4", "claude-haiku-4.5"),
   ("claude-3-haiku-20240307", "gemini-2.5-flash")]

/-- The date-suffix normalisation (converter.py lines 92-94). -/
def normalizeDated (m : String) : String :=
  match datedBase m with
  | some p => p
  | none => m

/-- The alias/pass-through branch chain of `map_claude_model_to_gemini`
(converter.py lines 97-131), applied after normalisation. -/
def mapCore (m : String) : String :=
  if m = "claude-opus-4-5" then "claude-opus-4-5-thinking"
  else if m = "claude-sonnet-4-5" then "claude-sonnet-4-5"
  else if m = "claude-haiku-4-5" then "gemini-2.5-flash"
  else if m ∈ supportedModels then m
  else match (modelMapping.find? (fun p => p.1 == m)) with
    | some p => p.2
    | none => "claude-sonnet-4-5"

/-- `map_claude_model_to_gemini` (converter.py lines 76-131). -/
def map_claude_model_to_gemini (claude_model : String) : String :=
  if pyStrip claude_model = "" then "claude-sonnet-4-5"
  else mapCore (normalizeDated (pyStrip claude_model))

/-- The outputs of `map_claude_model_to_gemini` that are fixed points of the
map. -/
def mapFixedOutputs : List String :=
  ["claude-sonnet-4-5", "claude-opus-4-5-thinking", "gemini-3-pro-high"] ++
    supportedModels

theorem mapFixedOutputs_fixed :
    ∀ y ∈ mapFixedOutputs, map_claude_model_to_gemini y = y := by
  intro y hy
  fin_cases hy <;> decide

theorem mapCore_cases (m : String) :
    mapCore m = "claude-haiku-4.5" ∨ mapCore m ∈ mapFixedOutputs := by
  unfold mapCore
  split
  · right; simp [mapFixedOutputs, supportedModels]
  split
  · right; simp [mapFixedOutputs, supportedModels]
  split
  · right; simp [mapFixedOutputs, supportedModels]
  split
  · rename_i hm
    right; simp only [mapFixedOutputs, List.mem_append]; exact Or.inr hm
  · split
    · rename_i p hp
      have hmem := List.mem_of_find?_eq_some hp
      fin_cases hmem <;> simp [mapFixedOutputs, supportedModels]
    · right; simp [mapFixedOutputs, supportedModels]

theorem map_result_cases (s : String) :
    map_claude_model_to_gemini s = "claude-haiku-4.5" ∨
      map_claude_model_to_gemini s ∈ mapFixedOutputs := by
  unfold map_claude_model_to_gemini
  split
  · right; simp [mapFixedOutputs, supportedModels]
  · exact mapCore_cases _

theorem mapCore_eq_special (m : String)
    (h : mapCore m = "claude-haiku-4.5") : m = "claude-haiku-4" := by
  unfold mapCore at h
  split at h
  · exact absurd h (by decide)
  split at h
  · exact absurd h (by decide)
  split at h
  · exact absurd h (by decide)
  split at h
  · rename_i hm
    subst h
    exact absurd hm (by decide)
  · split at h
    · rename_i p hp
      have hmem := List.mem_of_find?_eq_some hp
      have hkey := List.find?_some hp
      fin_cases hmem <;> simp_all
    · exact absurd h (by decide)

theorem normalizeDated_ne_haiku4 (m : String) (h : m ≠ "claude-haiku-4") :
    normalizeDated m ≠ "claude-haiku-4" := by
  unfold normalizeDated
  split
  · rename_i p hp
    have hmem := List.mem_of_find?_eq_some hp
    fin_cases hmem <;> decide
  · exact h

theorem map_eq_special (s : String)
    (h : map_claude_model_to_gemini s = "claude-haiku-4.5") :
    pyStrip s = "claude-haiku-4" := by
  unfold map_claude_model_to_gemini at h
  split at h
  · exact absurd h (by decide)
  · by_contra hne
    exact normalizeDated_ne_haiku4 _ hne (mapCore_eq_special _ h)

/-- C5 counterexample: the model-mapping function is not idempotent on its
own output.  `map_claude_model_to_gemini "claude-haiku-4"` is
`"claude-haiku-4.5"`, which is neither an alias, a supported model, nor a
mapping key, so a second application falls back to the default
`"claude-sonnet-4-5"`. -/
theorem c5_counterexample :
    map_claude_model_to_gemini "claude-haiku-4" = "claude-haiku-4.5" ∧
    map_claude_model_to_gemini
        (map_claude_model_to_gemini "claude-haiku-4") = "claude-sonnet-4-5" ∧
    map_claude_model_to_gemini (map_claude_model_to_gemini "claude-haiku-4") ≠
      map_claude_model_to_gemini "claude-haiku-4" := by
  refine ⟨by decide, by decide, by decide⟩

/-- C5 (amended): the model-mapping function is idempotent on its own output
for every input except those that strip to `"claude-haiku-4"` (whose image
`"claude-haiku-4.5"` maps on to the default). -/
theorem c5_model_mapping_idempotent_amended (m : String)
    (h : pyStrip m ≠ "claude-haiku-4") :
    map_claude_model_to_gemini (map_claude_model_to_gemini m) =
      map_claude_model_to_gemini m := by
  rcases map_result_cases m with hc | hfix
  · exact absurd (map_eq_special m hc) h
  · exact mapFixedOutputs_fixed _ hfix

/-- Concrete witness for the amended C5 theorem at input `"gemini-2.5-pro"`. -/
theorem c5_model_mapping_idempotent_witness :
    pyStrip "gemini-2.5-pro" ≠ "claude-haiku-4" ∧
    map_claude_model_to_gemini (map_claude_model_to_gemini "gemini-2.5-pro") =
      map_claude_model_to_gemini "gemini-2.5-pro" :=
  ⟨by decide, c5_model_mapping_idempotent_amended "gemini-2.5-pro" (by decide)⟩

end ModelMapping

section Failover

/-! ## `FailoverService.build_failover_chain`
(src/a2c/router/failover.py lines 121-153) -/

/-- The loop "add remaining available providers" (failover.py lines 149-151):
append each element of `avail` to `ch` unless it is already present. -/
def dedupAppend (ch : List String) (avail : List String) : List String :=
  avail.foldl (fun c p => if p ∈ c then c else c ++ [p]) ch

/-- The first two steps of `build_failover_chain` (failover.py lines
138-146): the primary if available, then the explicit fallback if set
(Python-truthy, i.e. not `None` and not `""`), available, and not already in
the chain. -/
def chainPre (primary : String) (fallback : Option String)
    (available : List String) : List String :=
  let chain := if primary ∈ available then [primary] else []
  match fallback with
  | some fb =>
      if fb ≠ "" ∧ fb ∈ available ∧ fb ∉ chain then chain ++ [fb] else chain
  | none => chain

/-- `FailoverService.build_failover_chain` (failover.py lines 121-153). -/
def build_failover_chain (primary : String) (fallback : Option String)
    (available : List String) : List String :=
  dedupAppend (chainPre primary fallback available) available

theorem dedupAppend_spec (avail : List String) :
    ∀ ch : List String, ∃ rest,
      dedupAppend ch avail = ch ++ rest ∧ rest.Sublist avail ∧
        (∀ x ∈ rest, x ∉ ch) ∧ (ch.Nodup → (ch ++ rest).Nodup) := by
  induction avail with
  | nil => exact fun ch => ⟨[], by simp [dedupAppend]⟩
  | cons a as ih =>
      intro ch
      by_cases ha : a ∈ ch
      · obtain ⟨rest, h1, h2, h3, h4⟩ := ih ch
        refine ⟨rest, ?_, h2.cons a, h3, h4⟩
        simpa [dedupAppend, ha] using h1
      · obtain ⟨rest, h1, h2, h3, h4⟩ := ih (ch ++ [a])
        refine ⟨a :: rest, ?_, h2.cons₂ a, ?_, ?_⟩
        · simpa [dedupAppend, ha] using h1
        · intro x hx
          rcases List.mem_cons.mp hx with rfl | hx
          · exact ha
          · intro hxc
            exact h3 x hx (List.mem_append_left _ hxc)
        · intro hnd
          have : (ch ++ [a]).Nodup := by
            simpa [List.nodup_append, ha] using hnd
          have := h4 this
          simpa [List.append_assoc] using this

theorem chainPre_subset (primary : String) (fallback : Option String)
    (available : List String) :
    ∀ x ∈ chainPre primary fallback available, x ∈ available := by
  intro x hx
  unfold chainPre at hx
  rcases fallback with _ | fb
  · by_cases hp : primary ∈ available <;> simp_all
  · by_cases hp : primary ∈ available <;>
      simp only [hp, if_true, if_false] at hx <;> split at hx <;>
      rename_i h <;> try simp_all
    have hx' : x = primary ∨ x = fb := by simpa using hx
    rcases hx' with rfl | rfl
    · exact hp
    · exact h.2.1

theorem chainPre_nodup (primary : String) (fallback : Option String)
    (available : List String) :
    (chainPre primary fallback available).Nodup := by
  unfold chainPre
  rcases fallback with _ | fb
  · by_cases hp : primary ∈ available <;> simp [hp]
  · by_cases hp : primary ∈ available <;>
      simp only [hp, if_true, if_false] <;> split <;> rename_i h <;>
      try simp_all
    exact fun hh => h.2.2 hh.symm

/-- C7: properties of the failover chain: no duplicates, all elements
available, length bounded by the number of available providers, primary
first whenever available, the fallback immediately after the primary when it
is set, available and distinct from the primary, and the remaining providers
following in their given order (the part after the primary/fallback segment
is a sublist of `available`). -/
theorem c7_failover_chain (primary : String) (fallback : Option String)
    (available : List String) :
    (build_failover_chain primary fallback available).Nodup ∧
    (∀ x ∈ build_failover_chain primary fallback available, x ∈ available) ∧
    (build_failover_chain primary fallback available).length ≤
      available.length ∧
    (primary ∈ available →
      (build_failover_chain primary fallback available).head? = some primary) ∧
    (∀ fb, fallback = some fb → fb ≠ "" → fb ∈ available →
      primary ∈ available → fb ≠ primary →
      (build_failover_chain primary fallback available)[1]? = some fb) ∧
    (∃ rest, build_failover_chain primary fallback available =
        chainPre primary fallback available ++ rest ∧ rest.Sublist available) := by
  obtain ⟨rest, h1, h2, h3, h4⟩ :=
    dedupAppend_spec available (chainPre primary fallback available)
  have hnd : (build_failover_chain primary fallback available).Nodup := by
    rw [build_failover_chain, h1]
    exact h4 (chainPre_nodup primary fallback available)
  have hsub : ∀ x ∈ build_failover_chain primary fallback available,
      x ∈ available := by
    intro x hx
    rw [build_failover_chain, h1, List.mem_append] at hx
    rcases hx with hx | hx
    · exact chainPre_subset primary fallback available x hx
    · exact h2.subset hx
  refine ⟨hnd, hsub, ?_, ?_, ?_, rest, by rw [build_failover_chain, h1], h2⟩
  · exact (hnd.subperm hsub).length_le
  · intro hp
    rw [build_failover_chain, h1]
    have : chainPre primary fallback available =
        primary :: (chainPre primary fallback available).tail := by
      unfold chainPre
      rcases fallback with _ | fb
      · simp [hp]
      · simp only [hp, if_true]
        split <;> simp
    rw [this]
    simp
  · intro fb hfb hne hfa hp hnp
    subst hfb
    have hpre : chainPre primary (some fb) available = [primary, fb] := by
      unfold chainPre
      simp only [hp, if_true]
      rw [if_pos ⟨hne, hfa, by simp [hnp]⟩]
      rfl
    rw [build_failover_chain, h1, hpre]
    simp

/-- Concrete witness for the C7 theorem at the spec §8 example
`build("a", "c", ["a","b","c"]) = ["a","c","b"]`. -/
theorem c7_failover_chain_witness :
    build_failover_chain "a" (some "c") ["a", "b", "c"] = ["a", "c", "b"] ∧
    ("a" : String) ∈ ["a", "b", "c"] ∧
    (build_failover_chain "a" (some "c") ["a", "b", "c"]).head? = some "a" ∧
    (build_failover_chain "a" (some "c") ["a", "b", "c"])[1]? = some "c" :=
  ⟨by decide, by decide,
    (c7_failover_chain "a" (some "c") ["a", "b", "c"]).2.2.2.1 (by decide),
    (c7_failover_chain "a" (some "c") ["a", "b", "c"]).2.2.2.2.1 "c" rfl
      (by decide) (by decide) (by decide) (by decide)⟩

end Failover

section Routing

/-! ## `RoutingRule.matches` (src/a2c/router/rules.py lines 29-94)

The regular-expression engine is external to the routed logic; it is
modelled by an abstract parameter `reMatch : pattern → model → Bool`.  The
request's `model` field is a string per the data model and is passed as the
projection `request.get("model", "")`; the `thinking` field is passed as
`Option JVal` (`none` when the key is absent). -/

/-- A routing rule (rules.py lines 29-45). -/
structure RoutingRule where
  name : String := ""
  provider : String := ""
  priority : Int := 0
  agent_type : Option String := none
  model_pattern : Option String := none
  thinking_enabled : Option Bool := none
  min_context_tokens : Option Int := none
  max_context_tokens : Option Int := none
  fallback_provider : Option String := none

/-- `agent_type or "default"` (rules.py line 65). -/
def effectiveAgent (agent_type : Option String) : String :=
  match agent_type with
  | none => "default"
  | some s => if s = "" then "default" else s

/-- The `is_thinking` resolution of rules.py lines 76-82: a dict counts as
thinking-enabled iff its `type` key holds exactly the string `"enabled"`
(`thinking.get("type")`, with NO default — a missing `type` key yields
`None`, which is not `"enabled"`); otherwise only the boolean `True`
enables. -/
def resolveThinkingRules (thinkingField : Option JVal) : Bool :=
  match (match thinkingField with | none => JVal.obj [] | some v => v) with
  | .obj fs =>
      match dget fs "type" .null with
      | .str s => s == "enabled"
      | _ => false
  | .bool b => b
  | _ => false

/-- The thinking resolution as §4.B of the spec states it (and as claim C6
references it): absent/null/false resolve to false, booleans to themselves,
dicts via `type` defaulting to `"enabled"` when the key is missing, anything
else to false. -/
def resolveThinkingSpec (thinkingField : Option JVal) : Bool :=
  match thinkingField with
  | none => false
  | some .null => false
  | some (.bool b) => b
  | some (.obj fs) =>
      match dget fs "type" (.str "enabled") with
      | .str s => s == "enabled"
      | _ => false
  | some _ => false

/-- `RoutingRule.matches` (rules.py lines 47-94), written as the source's
chain of early-`return False` checks. -/
def RoutingRule.matches (r : RoutingRule) (reMatch : String → String → Bool)
    (model : String) (thinkingField : Option JVal)
    (agent_type : Option String) (context_tokens : Int) : Bool :=
  if (match r.agent_type with
      | some a => a != "" && a != effectiveAgent agent_type
      | none => false) then false
  else if (match r.model_pattern with
      | some p => p != "" && !reMatch p model
      | none => false) then false
  else if (match r.thinking_enabled with
      | some te => te != resolveThinkingRules thinkingField
      | none => false) then false
  else if (match r.min_context_tokens with
      | some mn => decide (context_tokens < mn)
      | none => false) then false
  else if (match r.max_context_tokens with
      | some mx => decide (context_tokens > mx)
      | none => false) then false
  else true

/-- The populated-clause conjuncts, as the claim states them (with the
thinking clause given by the source's resolution). -/
def agentClause (r : RoutingRule) (agent_type : Option String) : Bool :=
  match r.agent_type with
  | none => true
  | some a => if a = "" then true else a == effectiveAgent agent_type

def patternClause (r : RoutingRule) (reMatch : String → String → Bool)
    (model : String) : Bool :=
  match r.model_pattern with
  | none => true
  | some p => if p = "" then true else reMatch p model

def thinkingClause (r : RoutingRule) (thinkingField : Option JVal) : Bool :=
  match r.thinking_enabled with
  | none => true
  | some te => te == resolveThinkingRules thinkingField

def minClause (r : RoutingRule) (context_tokens : Int) : Bool :=
  match r.min_context_tokens with
  | none => true
  | some mn => decide (mn ≤ context_tokens)

def maxClause (r : RoutingRule) (context_tokens : Int) : Bool :=
  match r.max_context_tokens with
  | none => true
  | some mx => decide (context_tokens ≤ mx)

/-- The matching predicate exactly as claim C6 words it, with the thinking
clause given by the §4.B resolution (`resolveThinkingSpec`). -/
def matchesSpecC6 (r : RoutingRule) (reMatch : String → String → Bool)
    (model : String) (thinkingField : Option JVal)
    (agent_type : Option String) (context_tokens : Int) : Bool :=
  agentClause r agent_type && patternClause r reMatch model &&
    (match r.thinking_enabled with
     | none => true
     | some te => te == resolveThinkingSpec thinkingField) &&
    minClause r context_tokens && maxClause r context_tokens

/-- C6 counterexample: for a rule whose only populated clause is
`thinking_enabled = true` and a request whose `thinking` field is an empty
dict, the claim (via the §4.B resolution, under which a dict with no `type`
key counts as enabled) predicts a match, but `RoutingRule.matches` returns
false: rules.py uses `thinking.get("type") == "enabled"` with no default,
so a dict without a `type` key is resolved as NOT thinking-enabled. -/
theorem c6_counterexample :
    RoutingRule.matches { thinking_enabled := some true }
        (fun _ _ => true) "m" (some (JVal.obj [])) none 0 = false ∧
    matchesSpecC6 { thinking_enabled := some true }
        (fun _ _ => true) "m" (some (JVal.obj [])) none 0 = true := by
  constructor <;> rfl

/-- C6 (amended): `matches` is the boolean AND of the populated clauses,
with the thinking clause comparing against the source's resolution
(`resolveThinkingRules`, under which a dict counts as enabled only when its
`type` key is exactly the string `"enabled"`). -/
theorem c6_matches_is_conjunction_amended (r : RoutingRule)
    (reMatch : String → String → Bool) (model : String)
    (thinkingField : Option JVal) (agent_type : Option String)
    (context_tokens : Int) :
    RoutingRule.matches r reMatch model thinkingField agent_type
        context_tokens =
      (agentClause r agent_type && patternClause r reMatch model &&
        thinkingClause r thinkingField && minClause r context_tokens &&
        maxClause r context_tokens) := by
  have chain : ∀ c1 c2 c3 c4 c5 : Bool,
      (if c1 then false else if c2 then false else if c3 then false
        else if c4 then false else if c5 then false else true) =
      (!c1 && !c2 && !c3 && !c4 && !c5) := by
    intro c1 c2 c3 c4 c5
    cases c1 <;> cases c2 <;> cases c3 <;> cases c4 <;> cases c5 <;> rfl
  rw [RoutingRule.matches, chain]
  have hA : (!(match r.agent_type with
      | some a => a != "" && a != effectiveAgent agent_type
      | none => false)) = agentClause r agent_type := by
    rw [agentClause]
    rcases r.agent_type with _ | a
    · rfl
    · by_cases ha : a = "" <;>
        by_cases hb : a = effectiveAgent agent_type <;>
        simp [bne, ha, hb]
  have hP : (!(match r.model_pattern with
      | some p => p != "" && !reMatch p model
      | none => false)) = patternClause r reMatch model := by
    rw [patternClause]
    rcases r.model_pattern with _ | p
    · rfl
    · by_cases hp : p = "" <;> cases hb : reMatch p model <;> simp_all
  have hT : (!(match r.thinking_enabled with
      | some te => te != resolveThinkingRules thinkingField
      | none => false)) = thinkingClause r thinkingField := by
    rw [thinkingClause]
    rcases r.thinking_enabled with _ | te
    · rfl
    · cases te <;> cases resolveThinkingRules thinkingField <;> rfl
  have hMn : (!(match r.min_context_tokens with
      | some mn => decide (context_tokens < mn)
      | none => false)) = minClause r context_tokens := by
    rw [minClause]
    rcases r.min_context_tokens with _ | mn
    · rfl
    · simp [← decide_not, Int.not_lt]
  have hMx : (!(match r.max_context_tokens with
      | some mx => decide (context_tokens > mx)
      | none => false)) = maxClause r context_tokens := by
    rw [maxClause]
    rcases r.max_context_tokens with _ | mx
    · rfl
    · simp [← decide_not, Int.not_lt]
  rw [hA, hP, hT, hMn, hMx]

end Routing

section GenerationConfig

/-! ## `get_thinking_config` and `build_generation_config`
(src/a2c/core/converter.py lines 45-73 and 486-600) -/

theorem dhas_cons (a : String) (b : JVal) (fs : List (String × JVal))
    (k' : String) : dhas ((a, b) :: fs) k' = (a == k' || dhas fs k') := by
  simp [dhas]

theorem dhas_nil (k : String) : dhas [] k = false := rfl

theorem dhas_dinsert (fs : List (String × JVal)) (k : String) (v : JVal)
    (k' : String) : dhas (dinsert fs k v) k' = (k' == k || dhas fs k') := by
  induction fs with
  | nil =>
      show dhas [(k, v)] k' = (k' == k || dhas [] k')
      rw [dhas_cons]
      by_cases h : k = k'
      · subst h; simp
      · have h2 : ¬k' = k := fun hh => h hh.symm
        simp [dhas, beq_iff_eq, h, h2]
  | cons p rest ih =>
      rcases p with ⟨pk, pv⟩
      by_cases hk : pk = k
      · subst hk
        rw [show dinsert ((pk, pv) :: rest) pk v = (pk, v) :: rest from by
              simp [dinsert]]
        rw [dhas_cons, dhas_cons]
        by_cases h' : k' = pk
        · subst h'; simp
        · have h'' : ¬pk = k' := fun hh => h' hh.symm
          simp [beq_iff_eq, h', h'']
      · rw [show dinsert ((pk, pv) :: rest) k v = (pk, pv) :: dinsert rest k v
              from by simp [dinsert, hk]]
        rw [dhas_cons, ih, dhas_cons]
        cases pk == k' <;> cases k' == k <;> simp

/-- `get_thinking_config` (converter.py lines 45-73). -/
def get_thinking_config (thinking : JVal) : List (String × JVal) :=
  match thinking with
  | .null => [("includeThoughts", .bool true), ("thinkingBudget", .int 1024)]
  | .bool b =>
      if b then
        [("includeThoughts", .bool true), ("thinkingBudget", .int 1024)]
      else [("includeThoughts", .bool false)]
  | .obj fs =>
      if (match dget fs "type" (.str "enabled") with
          | .str s => s == "enabled"
          | _ => false) then
        [("includeThoughts", .bool true),
         ("thinkingBudget", dget fs "budget_tokens" (.int 1024))]
      else [("includeThoughts", .bool false)]
  | _ => [("includeThoughts", .bool true), ("thinkingBudget", .int 1024)]

/-- Iterating a Python value with `for`/`reversed` (used for
`payload.get("messages") or []`): lists yield elements, strings yield
one-character strings, dicts yield their keys; other truthy values raise
`TypeError`. -/
def pyIterElems (v : JVal) : Except String (List JVal) :=
  match v with
  | .arr xs => .ok xs
  | .str s => .ok (s.data.map (fun c => JVal.str (String.mk [c])))
  | .obj fs => .ok (fs.map (fun p => JVal.str p.1))
  | _ => .error "TypeError: not iterable"

/-- The scan of converter.py lines 536-550, after `reversed` has been
applied: find the first (most recent) assistant message whose content is a
non-empty list and return its first block's `type` (`JVal.null` models
Python `None`, which is also the result when no such message exists, when
the first block is not a dict, or when it has no `type` key).  Messages that
are not dicts, have a non-assistant role, or whose content is not a
non-empty list are skipped. -/
def latScan : List JVal → JVal
  | [] => .null
  | m :: rest =>
      match m with
      | .obj fs =>
          if (match dget fs "role" .null with
              | .str s => s == "assistant"
              | _ => false) then
            match dget fs "content" .null with
            | .arr (first :: _) =>
                (match first with
                 | .obj ffs => dget ffs "type" .null
                 | _ => .null)
            | _ => latScan rest
          else latScan rest
      | _ => latScan rest

/-- Membership in the set `{None, "thinking", "redacted_thinking"}`
(converter.py lines 553-557). -/
def allowedLastType (v : JVal) : Bool :=
  match v with
  | .null => true
  | .str s => s == "thinking" || s == "redacted_thinking"
  | _ => false

/-- The default `stopSequences` sentinel list (converter.py lines 497-503). -/
def defaultStopSequences : List JVal :=
  [.str "<|user|>", .str "<|bot|>", .str "<|context_request|>",
   .str "<|endoftext|>", .str "<|end_of_turn|>"]

/-- The generationConfig accumulated before the thinking handling
(converter.py lines 493-525). -/
def gcPre (payload : List (String × JVal)) : List (String × JVal) :=
  let config : List (String × JVal) :=
    [("topP", .int 1), ("topK", .int 40), ("candidateCount", .int 1),
     ("stopSequences", .arr defaultStopSequences)]
  let config := dinsert config "temperature"
    (match dget payload "temperature" .null with
     | .null => .float 0.4
     | v => v)
  let config := match dget payload "top_p" .null with
    | .null => config
    | v => dinsert config "topP" v
  let config := match dget payload "top_k" .null with
    | .null => config
    | v => dinsert config "topK" v
  let config := match dget payload "max_tokens" .null with
    | .null => config
    | v => dinsert config "maxOutputTokens" v
  match dget payload "stop_sequences" .null with
  | .arr (x :: xs) =>
      dinsert config "stopSequences"
        (match dget config "stopSequences" (.arr []) with
         | .arr cur => .arr (cur ++ (x :: xs).map (fun s => .str (pyStr s)))
         | _ => .arr ((x :: xs).map (fun s => .str (pyStr s))))
  | _ => config

/-- `bool(thinking_config.get("includeThoughts", False))`. -/
def includeOf (tv : JVal) : Bool :=
  (dget (get_thinking_config tv) "includeThoughts" (.bool false)).truthy

/-- `build_generation_config` (converter.py lines 486-600).  Returns the
pair `(generationConfig, should_include_thinking)`; `Except.error` models a
raised `TypeError` (a truthy non-iterable `messages` value). -/
def build_generation_config (payload : List (String × JVal)) :
    Except String (List (String × JVal) × Bool) :=
  let config := gcPre payload
  if dhas payload "thinking" then
    match dget payload "thinking" .null with
    | .null => .ok (config, false)
    | tv =>
        let thinking_config := get_thinking_config tv
        let include_thoughts := includeOf tv
        match pyIterElems (orElseJ (dget payload "messages" .null) (.arr [])) with
        | .error e => .error e
        | .ok msgs =>
            if include_thoughts && !(allowedLastType (latScan msgs.reverse)) then
              .ok (config, false)
            else
              let mt := dget payload "max_tokens" .null
              let budget := dget thinking_config "thinkingBudget" .null
              if include_thoughts && mt.isIntLike && budget.isIntLike &&
                  decide (budget.intLikeVal ≥ mt.intLikeVal) then
                if mt.intLikeVal - 1 ≤ 0 then .ok (config, false)
                else
                  .ok (dinsert config "thinkingConfig"
                        (.obj (dinsert thinking_config "thinkingBudget"
                          (.int (max 0 (mt.intLikeVal - 1))))),
                      include_thoughts)
              else
                .ok (dinsert config "thinkingConfig" (.obj thinking_config),
                    include_thoughts)
  else .ok (config, false)

theorem gcPre_no_thinkingConfig (payload : List (String × JVal)) :
    dhas (gcPre payload) "thinkingConfig" = false := by
  unfold gcPre
  repeat' split
  all_goals simp [dhas_dinsert, dhas_cons, dhas_nil]

end GenerationConfig

section ThinkingClaims

/-- Is this value a dict whose `type` (defaulting to `"enabled"`) is not
`"enabled"` — i.e. a `thinking` dict that `get_thinking_config` treats as
disabled? -/
def thinkingDisabledDict (v : JVal) : Bool :=
  match v with
  | .obj fs =>
      !(match dget fs "type" (.str "enabled") with
        | .str s => s == "enabled"
        | _ => false)
  | _ => false

theorem build_gc_absent_or_null (payload : List (String × JVal))
    (cfg : List (String × JVal)) (b : Bool)
    (hres : build_generation_config payload = .ok (cfg, b))
    (h : dhas payload "thinking" = false ∨
      dget payload "thinking" .null = .null) :
    cfg = gcPre payload ∧ b = false := by
  rcases h with h | h
  · unfold build_generation_config at hres
    rw [h] at hres
    simp only [Bool.false_eq_true, if_false, Except.ok.injEq, Prod.mk.injEq]
      at hres
    exact ⟨hres.1.symm, hres.2.symm⟩
  · by_cases hd : dhas payload "thinking"
    · unfold build_generation_config at hres
      rw [hd, h] at hres
      simp only [if_true, Except.ok.injEq, Prod.mk.injEq] at hres
      exact ⟨hres.1.symm, hres.2.symm⟩
    · unfold build_generation_config at hres
      rw [Bool.not_eq_true] at hd
      rw [hd] at hres
      simp only [Bool.false_eq_true, if_false, Except.ok.injEq, Prod.mk.injEq]
        at hres
      exact ⟨hres.1.symm, hres.2.symm⟩

theorem build_gc_flag (payload : List (String × JVal))
    (cfg : List (String × JVal)) (b : Bool)
    (hres : build_generation_config payload = .ok (cfg, b)) :
    b = false ∨ b = includeOf (dget payload "thinking" .null) := by
  unfold build_generation_config at hres
  split at hres
  · split at hres
    · left
      simp only [Except.ok.injEq, Prod.mk.injEq] at hres
      exact hres.2.symm
    · rename_i tv htv
      split at hres
      · exact absurd hres (by simp)
      · dsimp only at hres
        split at hres
        · left
          simp only [Except.ok.injEq, Prod.mk.injEq] at hres
          exact hres.2.symm
        · split at hres
          · split at hres
            · left
              simp only [Except.ok.injEq, Prod.mk.injEq] at hres
              exact hres.2.symm
            · right
              simp only [Except.ok.injEq, Prod.mk.injEq] at hres
              exact hres.2.symm
          · right
            simp only [Except.ok.injEq, Prod.mk.injEq] at hres
            exact hres.2.symm
  · left
    simp only [Except.ok.injEq, Prod.mk.injEq] at hres
    exact hres.2.symm

theorem includeOf_bool_false : includeOf (.bool false) = false := rfl

theorem includeOf_disabledDict (v : JVal)
    (h : thinkingDisabledDict v = true) : includeOf v = false := by
  rcases v with _ | _ | _ | _ | _ | _ | fs <;> simp [thinkingDisabledDict] at h
  rw [includeOf, get_thinking_config]
  split
  · rename_i he
    rw [he] at h
    cases h
  · rfl

/-- C3 counterexample: `build_generation_config` does NOT leave
`thinkingConfig` out for every want=false request.  For
`thinking = false` (boolean) the flag is false but the returned config DOES
contain `thinkingConfig = {"includeThoughts": false}` (pinned by the source
test `test_thinking_disabled_includes_config`), and for a `thinking` value
that is neither a bool nor a dict (here the string `"yes"`)
`get_thinking_config` falls through to its enabled default, so the flag is
true — contradicting the claim on both counts. -/
theorem c3_counterexample :
    (build_generation_config [("thinking", JVal.bool false)]).toOption.map
        (fun p => (dhas p.1 "thinkingConfig",
          dget p.1 "thinkingConfig" .null, p.2)) =
      some (true, .obj [("includeThoughts", .bool false)], false) ∧
    (build_generation_config [("thinking", JVal.str "yes")]).toOption.map
        (fun p => p.2) = some true :=
  ⟨rfl, rfl⟩

/-- C3 (amended): when the `thinking` field is absent or null,
`build_generation_config` returns `include_thinking = false` and a config
with no `thinkingConfig` key; when it is the boolean `false` or a dict whose
`type` is not `"enabled"`, the flag is still false, but (unlike the original
claim) a `thinkingConfig` of `{"includeThoughts": false}` is emitted in
that case, and a `thinking` value that is neither bool nor dict (nor null)
resolves to enabled rather than disabled. -/
theorem c3_want_false_amended (payload : List (String × JVal))
    (cfg : List (String × JVal)) (b : Bool)
    (hres : build_generation_config payload = .ok (cfg, b)) :
    ((dhas payload "thinking" = false ∨
        dget payload "thinking" .null = .null) →
      b = false ∧ dhas cfg "thinkingConfig" = false) ∧
    ((dget payload "thinking" .null = .bool false ∨
        thinkingDisabledDict (dget payload "thinking" .null) = true) →
      b = false) := by
  constructor
  · intro h
    obtain ⟨hcfg, hb⟩ := build_gc_absent_or_null payload cfg b hres h
    exact ⟨hb, hcfg ▸ gcPre_no_thinkingConfig payload⟩
  · intro h
    rcases build_gc_flag payload cfg b hres with hb | hb
    · exact hb
    · rcases h with h | h
      · rw [hb, h, includeOf_bool_false]
      · rw [hb, includeOf_disabledDict _ h]

/-- Concrete witness for the amended C3 theorem: the empty request (no
`thinking` field) yields flag false and no `thinkingConfig`; the request
`{"thinking": {"type": "disabled"}}` yields flag false. -/
theorem c3_want_false_witness :
    (false = false ∧ dhas (gcPre []) "thinkingConfig" = false) ∧
      (false = false) :=
  ⟨(c3_want_false_amended [] (gcPre []) false rfl).1 (Or.inl rfl),
   (c3_want_false_amended
      [("thinking", JVal.obj [("type", JVal.str "disabled")])]
      (dinsert (gcPre [("thinking", JVal.obj [("type", JVal.str "disabled")])])
        "thinkingConfig" (.obj [("includeThoughts", .bool false)]))
      false rfl).2 (Or.inr rfl)⟩

end ThinkingClaims

section HistoryClaims

/-- C4 counterexample: a request with thinking enabled whose most recent
assistant message has PLAIN STRING content keeps thinking enabled: the
history scan of converter.py lines 537-550 `continue`s past any assistant
message whose content is not a non-empty list, so such a message never
disables thinking — `build_generation_config` returns flag true and emits a
`thinkingConfig`, contradicting the claim. -/
theorem c4_counterexample :
    (build_generation_config
        [("thinking", JVal.bool true),
         ("messages", JVal.arr [JVal.obj
           [("role", JVal.str "assistant"),
            ("content", JVal.str "hi")]])]).toOption.map
      (fun p => (dhas p.1 "thinkingConfig", p.2)) = some (true, true) := rfl

/-- C4 (amended): the history scan considers only assistant messages whose
content is a NON-EMPTY LIST (plain-string assistant messages are skipped).
When thinking resolves to enabled and the first content block of the most
recent such assistant message has a `type` that is neither missing/None nor
`"thinking"`/`"redacted_thinking"`, `build_generation_config` disables
thinking for the call: it returns the pre-thinking config unchanged, flag
false, and no `thinkingConfig` key. -/
theorem c4_history_mismatch_amended (payload : List (String × JVal))
    (msgs : List JVal)
    (hthink : dhas payload "thinking" = true)
    (hinc : includeOf (dget payload "thinking" .null) = true)
    (hmsgs : pyIterElems (orElseJ (dget payload "messages" .null) (.arr [])) =
      .ok msgs)
    (hbad : allowedLastType (latScan msgs.reverse) = false) :
    build_generation_config payload = .ok (gcPre payload, false) ∧
    dhas (gcPre payload) "thinkingConfig" = false := by
  refine ⟨?_, gcPre_no_thinkingConfig payload⟩
  unfold build_generation_config
  rw [hthink]
  simp only [if_true]
  cases htv : dget payload "thinking" .null
  case null => rfl
  all_goals
    rw [htv] at hinc
    dsimp only
    rw [hmsgs]
    dsimp only
    rw [hinc, hbad]
    rfl

/-- Concrete witness for the amended C4 theorem: thinking requested, most
recent assistant message's first content block has type `"text"`. -/
theorem c4_history_mismatch_witness :
    build_generation_config
        [("thinking", JVal.bool true),
         ("messages", JVal.arr [JVal.obj
           [("role", JVal.str "assistant"),
            ("content", JVal.arr [JVal.obj [("type", JVal.str "text")]])]])] =
      .ok (gcPre
        [("thinking", JVal.bool true),
         ("messages", JVal.arr [JVal.obj
           [("role", JVal.str "assistant"),
            ("content", JVal.arr [JVal.obj [("type", JVal.str "text")]])]])],
        false) ∧
    dhas (gcPre
        [("thinking", JVal.bool true),
         ("messages", JVal.arr [JVal.obj
           [("role", JVal.str "assistant"),
            ("content", JVal.arr [JVal.obj [("type", JVal.str "text")]])]])])
      "thinkingConfig" = false :=
  c4_history_mismatch_amended _
    [JVal.obj [("role", JVal.str "assistant"),
      ("content", JVal.arr [JVal.obj [("type", JVal.str "text")]])]]
    rfl rfl rfl rfl

end HistoryClaims

section MessageConversion

/-! ## `_extract_tool_result_output` and `convert_messages_to_contents`
(src/a2c/core/converter.py lines 26-43, 272-285 and 288-403) -/

/-- Python `x == "some string"` for an arbitrary value `x`: true only when
`x` is that string. -/
def jeqS (v : JVal) (s : String) : Bool :=
  match v with
  | .str s' => s' == s
  | _ => false

/-- `_is_non_whitespace_text` (converter.py lines 26-43):
`bool(str(value).strip())`, with `None` mapped to false. -/
def _is_non_whitespace_text (v : JVal) : Bool :=
  match v with
  | .null => false
  | v => pyStrip (pyStr v) != ""

/-- `isinstance(first, dict) and first.get("type") == "text"`. -/
def isTextDict (v : JVal) : Bool :=
  match v with
  | .obj ffs => jeqS (dget ffs "type" .null) "text"
  | _ => false

/-- `_extract_tool_result_output` (converter.py lines 272-285).  Only the
FIRST element of a list content is inspected: if it is a text dict its
`text` is returned, otherwise `str(first)`; non-list content is
stringified, `None` and the empty list yield `""`. -/
def _extract_tool_result_output (content : JVal) : String :=
  match content with
  | .arr [] => ""
  | .arr (first :: _) =>
      (match first with
       | .obj ffs =>
           if jeqS (dget ffs "type" .null) "text" then
             pyStr (dget ffs "text" (.str ""))
           else pyStr (.obj ffs)
       | f => pyStr f)
  | .null => ""
  | v => pyStr v

/-- The extraction rule as claim C9 words it: the text of the FIRST TEXT
PART anywhere in a list content (if one exists), the stringification of the
content otherwise, the empty string for empty or absent content. -/
def extractSpecC9 (content : JVal) : String :=
  match content with
  | .arr xs =>
      (match xs.find? isTextDict with
       | some t =>
           pyStr (match t with
                  | .obj ffs => dget ffs "text" (.str "")
                  | _ => .str "")
       | none => if xs.isEmpty then "" else pyStr (.arr xs))
  | .null => ""
  | v => pyStr v

/-- Translation of one content block (the per-item body of the loop in
`convert_messages_to_contents`, converter.py lines 310-392), returning the
emitted parts (zero or one).  `Except.error` models the `AttributeError`
raised when an `image` block carries a truthy non-dict `source`. -/
def convertContentItem (include_thinking : Bool) (item : JVal) :
    Except String (List JVal) :=
  match item with
  | .obj fs =>
      if jeqS (dget fs "type" .null) "thinking" then
        (if !include_thinking then .ok []
         else if !(dget fs "signature" .null).truthy then .ok []
         else .ok [JVal.obj
           [("text", .str (pyStr (match dget fs "thinking" (.str "") with
                                  | .null => .str ""
                                  | v => v))),
            ("thought", .bool true),
            ("thoughtSignature", dget fs "signature" .null)]])
      else if jeqS (dget fs "type" .null) "redacted_thinking" then
        (if !include_thinking then .ok []
         else if !(dget fs "signature" .null).truthy then .ok []
         else .ok [JVal.obj
           [("text", .str (pyStr (orElseJ
              (match dget fs "thinking" .null with
               | .null => dget fs "data" (.str "")
               | v => v) (.str "")))),
            ("thought", .bool true),
            ("thoughtSignature", dget fs "signature" .null)]])
      else if jeqS (dget fs "type" .null) "text" then
        (if _is_non_whitespace_text (dget fs "text" (.str "")) then
          .ok [JVal.obj [("text", .str (pyStr (dget fs "text" (.str ""))))]]
         else .ok [])
      else if jeqS (dget fs "type" .null) "image" then
        (match orElseJ (dget fs "source" (.obj [])) (.obj []) with
         | .obj src =>
             if jeqS (dget src "type" .null) "base64" then
               .ok [JVal.obj [("inlineData", .obj
                 [("mimeType", dget src "media_type" (.str "image/png")),
                  ("data", dget src "data" (.str ""))])]]
             else .ok []
         | _ => .error "AttributeError: source is not a dict")
      else if jeqS (dget fs "type" .null) "tool_use" then
        .ok [JVal.obj [("functionCall", .obj
          [("id", dget fs "id" .null),
           ("name", dget fs "name" .null),
           ("args", orElseJ (dget fs "input" (.obj [])) (.obj []))])]]
      else if jeqS (dget fs "type" .null) "tool_result" then
        .ok [JVal.obj [("functionResponse", .obj
          [("id", dget fs "tool_use_id" .null),
           ("name", dget fs "name" (.str "")),
           ("response", .obj [("output",
             .str (_extract_tool_result_output (dget fs "content" .null)))])])]]
      else .ok [JVal.obj [("text", .str (jdump item))]]
  | v =>
      if _is_non_whitespace_text v then .ok [JVal.obj [("text", .str (pyStr v))]]
      else .ok []

/-- `convert_messages_to_contents` (converter.py lines 288-403).  Messages
are dicts per the source's type annotation. -/
def convert_messages_to_contents (messages : List (List (String × JVal)))
    (include_thinking : Bool) : Except String (List JVal) :=
  messages.foldlM (fun contents msg => do
    let gemini_role : String :=
      if jeqS (dget msg "role" (.str "user")) "assistant" then "model"
      else "user"
    let parts ← (match dget msg "content" (.str "") with
      | .arr items =>
          items.foldlM (fun acc it => do
            let ps ← convertContentItem include_thinking it
            pure (acc ++ ps)) ([] : List JVal)
      | v =>
          pure (if _is_non_whitespace_text v then
                  [JVal.obj [("text", .str (pyStr v))]]
                else []))
    if parts.isEmpty then pure contents
    else pure (contents ++
      [JVal.obj [("role", .str gemini_role), ("parts", .arr parts)]]))
    []

end MessageConversion

section ToolResultClaims

theorem jeqS_eq (v : JVal) (s : String) (h : jeqS v s = true) : v = .str s := by
  cases v
  case str s' =>
    simp only [jeqS, beq_iff_eq] at h
    rw [h]
  all_goals simp [jeqS] at h

/-- The content list used to refute C9: an image part followed by a text
part.  The claim says the output is the text of the first TEXT part
(`"hi"`); the code only inspects the FIRST element and stringifies it. -/
def c9Content : JVal :=
  .arr [.obj [("type", .str "image")],
        .obj [("type", .str "text"), ("text", .str "hi")]]

/-- C9 counterexample: for a `tool_result` whose content is
`[{type: image}, {type: text, text: "hi"}]`, the code emits
`output = "{'type': 'image'}"` (the Python stringification of the first
element), not `"hi"` (the text of the first text part) as the claim
states — `_extract_tool_result_output` only looks at `content[0]`. -/
theorem c9_counterexample :
    _extract_tool_result_output c9Content = "\x7b'type': 'image'\x7d" ∧
    extractSpecC9 c9Content = "hi" ∧
    _extract_tool_result_output c9Content ≠ extractSpecC9 c9Content ∧
    convert_messages_to_contents
        [[("role", .str "user"),
          ("content", .arr [.obj
            [("type", .str "tool_result"), ("tool_use_id", .str "t1"),
             ("content", c9Content)]])]] true =
      .ok [.obj [("role", .str "user"), ("parts", .arr
        [.obj [("functionResponse", .obj
          [("id", .str "t1"), ("name", .str ""),
           ("response", .obj
             [("output", .str "\x7b'type': 'image'\x7d")])])]])]] := by
  refine ⟨?_, ?_, ?_, ?_⟩
  · simp [_extract_tool_result_output, c9Content, pyStr, pyRepr,
      pyReprFields, jeqS, dget]
  · simp [extractSpecC9, c9Content, isTextDict, jeqS, dget, pyStr,
      List.find?]
  · simp [_extract_tool_result_output, extractSpecC9, c9Content, isTextDict,
      jeqS, dget, pyStr, pyRepr, pyReprFields, List.find?]
  · simp [convert_messages_to_contents, convertContentItem, c9Content,
      _extract_tool_result_output, jeqS, dget, pyStr, pyRepr, pyReprFields,
      List.foldlM, _is_non_whitespace_text]
    rfl

/-- C9 (amended): every `tool_result` block converts to exactly one
`functionResponse` part whose `id` is the block's `tool_use_id` and whose
`response.output` is `_extract_tool_result_output` of the block's content;
and that extraction agrees with the claim's rule (text of the first text
part, else stringification of the content, empty for empty/absent)
whenever the content is not a list, is an empty list, or is a list whose
FIRST element is a text part.  (For a list whose first element is not a
text part the code stringifies that first element, even if a text part
occurs later — the counterexample.) -/
theorem c9_tool_result_amended (fs : List (String × JVal)) (inc : Bool)
    (h : jeqS (dget fs "type" .null) "tool_result" = true) :
    convertContentItem inc (.obj fs) =
      .ok [JVal.obj [("functionResponse", .obj
        [("id", dget fs "tool_use_id" .null),
         ("name", dget fs "name" (.str "")),
         ("response", .obj [("output",
           .str (_extract_tool_result_output (dget fs "content" .null)))])])]] ∧
    ∀ c, (c.isArr = false ∨ c = .arr [] ∨
          (∃ x rest, c = .arr (x :: rest) ∧ isTextDict x = true)) →
      _extract_tool_result_output c = extractSpecC9 c := by
  constructor
  · have ht := jeqS_eq _ _ h
    simp only [convertContentItem]
    rw [ht]
    rfl
  · intro c hc
    rcases hc with hc | hc | ⟨x, rest, rfl, hx⟩
    · cases c <;> simp [JVal.isArr] at hc <;>
        simp [_extract_tool_result_output, extractSpecC9]
    · rw [hc]
      rfl
    · have hfind : (x :: rest).find? isTextDict = some x :=
        List.find?_cons_of_pos _ hx
      cases x
      case obj ffs =>
        simp only [isTextDict] at hx
        simp [_extract_tool_result_output, extractSpecC9, hfind, hx]
      all_goals simp [isTextDict] at hx

/-- The concrete `tool_result` fields used by the C9 witness. -/
def c9WitnessFields : List (String × JVal) :=
  [("type", .str "tool_result"), ("tool_use_id", .str "t9"),
   ("content", .arr [.obj [("type", .str "text"), ("text", .str "ok")]])]

/-- Concrete witness for the amended C9 theorem: a `tool_result` whose
content's first element is a text part. -/
theorem c9_tool_result_witness :
    convertContentItem true (.obj c9WitnessFields) =
      .ok [JVal.obj [("functionResponse", .obj
        [("id", dget c9WitnessFields "tool_use_id" .null),
         ("name", dget c9WitnessFields "name" (.str "")),
         ("response", .obj [("output",
           .str (_extract_tool_result_output
             (dget c9WitnessFields "content" .null)))])])]] ∧
    _extract_tool_result_output
        (JVal.arr [JVal.obj [("type", JVal.str "text"),
          ("text", JVal.str "ok")]]) =
      extractSpecC9 (JVal.arr [JVal.obj [("type", JVal.str "text"),
        ("text", JVal.str "ok")]]) :=
  ⟨(c9_tool_result_amended c9WitnessFields true rfl).1,
   (c9_tool_result_amended c9WitnessFields true rfl).2 _
      (Or.inr (Or.inr ⟨_, _, rfl, rfl⟩))⟩

end ToolResultClaims

section SchemaSanitizer

/-! ## `clean_json_schema` (src/a2c/core/converter.py lines 134-236) -/

/-- The `unsupported_keys` set (converter.py lines 145-173). -/
def unsupportedKeys : List String :=
  ["$schema", "$id", "$ref", "$defs", "definitions", "title", "example",
   "examples", "readOnly", "writeOnly", "default", "exclusiveMaximum",
   "exclusiveMinimum", "oneOf", "anyOf", "allOf", "const",
   "additionalItems", "contains", "patternProperties", "dependencies",
   "propertyNames", "if", "then", "else", "contentEncoding",
   "contentMediaType"]

/-- The keys of `validation_fields` (converter.py lines 175-182), in
iteration order; each maps to itself as label. -/
def validationKeys : List String :=
  ["minLength", "maxLength", "minimum", "maximum", "minItems", "maxItems"]

/-- Keys skipped by the main loop: `unsupported_keys`, `fields_to_remove`
(just `additionalProperties`) and `validation_fields`. -/
def isBadKey (k : String) : Bool :=
  unsupportedKeys.contains k || k == "additionalProperties" ||
    validationKeys.contains k

/-- The `validations` annotation list (converter.py lines 185-188):
`"<label>: <str(value)>"` for each validation key present. -/
def collectValidations (fs : List (String × JVal)) : List String :=
  validationKeys.filterMap (fun f =>
    if dhas fs f then some (f ++ ": " ++ pyStr (dget fs f .null)) else none)

/-- `any(isinstance(t, str) and t.strip() and t.strip().lower() == "null")`
over a `type` array. -/
def typeHasNull (v : JVal) : Bool :=
  match v with
  | .arr ts => ts.any (fun t =>
      match t with
      | .str s => pyStrip s != "" && pyLower (pyStrip s) == "null"
      | _ => false)
  | _ => false

/-- The non-null entries of a `type` array, stripped. -/
def typeEntryKeep (t : JVal) : Option String :=
  match t with
  | .str s =>
      if pyStrip s != "" && pyLower (pyStrip s) != "null" then
        some (pyStrip s)
      else none
  | _ => none

/-- `non_null_types[0] if non_null_types else "string"` (converter.py
line 212). -/
def typeScalar (v : JVal) : JVal :=
  match v with
  | .arr ts =>
      (match ts.filterMap typeEntryKeep with
       | [] => .str "string"
       | t :: _ => .str t)
  | _ => .str "string"

/-- Post-step 1 (converter.py lines 229-230): synthesise a `Validation: ...`
description when validations were collected and no `description` survived. -/
def descStep (vs : List String) (cleaned : List (String × JVal)) :
    List (String × JVal) :=
  if !vs.isEmpty && !dhas cleaned "description" then
    dinsert cleaned "description"
      (.str ("Validation: " ++ String.intercalate ", " vs))
  else cleaned

/-- Post-step 2 (converter.py lines 233-234): infer `type: object` when
`properties` is present but `type` is not. -/
def typeStep (cleaned : List (String × JVal)) : List (String × JVal) :=
  if dhas cleaned "properties" && !dhas cleaned "type" then
    dinsert cleaned "type" (.str "object")
  else cleaned

mutual

/-- `clean_json_schema` (converter.py lines 134-236).  Non-dict inputs pass
through unchanged. -/
def clean_json_schema : JVal → JVal
  | .obj fs => .obj (cleanObjFields fs)
  | v => v

/-- The dict body of `clean_json_schema`: the main key loop followed by the
two post-steps (converter.py lines 229-234). -/
def cleanObjFields (fs : List (String × JVal)) : List (String × JVal) :=
  typeStep (descStep (collectValidations fs)
    (cleanFields (collectValidations fs) [] fs))

/-- The main key loop of `clean_json_schema` (converter.py lines 190-227),
with `acc` the `cleaned` dict built so far. -/
def cleanFields (vs : List String) (acc : List (String × JVal)) :
    List (String × JVal) → List (String × JVal)
  | [] => acc
  | (k, v) :: rest =>
      if isBadKey k then cleanFields vs acc rest
      else if k == "type" && v.isArr then
        cleanFields vs
          (if typeHasNull v then
            dinsert (dinsert acc "type" (typeScalar v)) "nullable" (.bool true)
           else dinsert acc "type" (typeScalar v)) rest
      else if k == "description" && !vs.isEmpty then
        cleanFields vs
          (dinsert acc k
            (.str (pyStr v ++ " (" ++ String.intercalate ", " vs ++ ")")))
          rest
      else cleanFields vs (dinsert acc k (cleanVal v)) rest

/-- The value transformation of the generic branch (converter.py lines
219-227): recurse into dict values, map over list values recursing into
dict items, leave the rest unchanged. -/
def cleanVal : JVal → JVal
  | .obj sub => clean_json_schema (.obj sub)
  | .arr items => .arr (cleanItems items)
  | v => v

/-- `[clean_json_schema(item) if isinstance(item, dict) else item for item
in value]`. -/
def cleanItems : List JVal → List JVal
  | [] => []
  | x :: rest =>
      (match x with
       | .obj s => clean_json_schema (.obj s)
       | v => v) :: cleanItems rest

end

end SchemaSanitizer

section SchemaIdempotence

/-- The keys of a modelled Python dict, in order. -/
def keysOf (fs : List (String × JVal)) : List String := fs.map Prod.fst

theorem dhas_iff_keys (fs : List (String × JVal)) (k : String) :
    dhas fs k = true ↔ k ∈ keysOf fs := by
  induction fs with
  | nil => simp [dhas, keysOf]
  | cons p rest ih =>
      rcases p with ⟨pk, pv⟩
      rw [dhas_cons]
      simp only [keysOf, List.map_cons, List.mem_cons]
      constructor
      · intro h
        rcases Bool.or_eq_true_iff.mp h with h | h
        · exact Or.inl (beq_iff_eq.mp h).symm
        · exact Or.inr ((ih.mp h))
      · intro h
        rcases h with h | h
        · exact Bool.or_eq_true_iff.mpr (Or.inl (beq_iff_eq.mpr h.symm))
        · exact Bool.or_eq_true_iff.mpr (Or.inr (ih.mpr h))

theorem keysOf_dinsert (fs : List (String × JVal)) (k : String) (v : JVal) :
    keysOf (dinsert fs k v) =
      if dhas fs k = true then keysOf fs else keysOf fs ++ [k] := by
  induction fs with
  | nil => simp [dinsert, dhas, keysOf]
  | cons p rest ih =>
      rcases p with ⟨pk, pv⟩
      by_cases hk : pk = k
      · subst hk
        rw [show dinsert ((pk, pv) :: rest) pk v = (pk, v) :: rest from by
              simp [dinsert]]
        rw [dhas_cons]
        simp [keysOf]
      · rw [show dinsert ((pk, pv) :: rest) k v = (pk, pv) :: dinsert rest k v
              from by simp [dinsert, hk]]
        rw [dhas_cons]
        have hpk : (pk == k) = false := by simp [hk]
        rw [hpk]
        simp only [Bool.false_or, keysOf, List.map_cons]
        rw [show List.map Prod.fst (dinsert rest k v) =
              keysOf (dinsert rest k v) from rfl, ih]
        by_cases hr : dhas rest k = true <;> simp [hr, keysOf]

theorem nodup_keys_dinsert (fs : List (String × JVal)) (k : String)
    (v : JVal) (h : (keysOf fs).Nodup) : (keysOf (dinsert fs k v)).Nodup := by
  rw [keysOf_dinsert]
  cases hk : dhas fs k with
  | true => simpa using h
  | false =>
      simp only [Bool.false_eq_true, if_false]
      rw [List.nodup_append]
      refine ⟨h, List.nodup_singleton k, ?_⟩
      intro a ha hb
      rw [List.mem_singleton] at hb
      subst hb
      rw [← dhas_iff_keys] at ha
      rw [hk] at ha
      cases ha

theorem dinsert_fresh (fs : List (String × JVal)) (k : String) (v : JVal)
    (h : dhas fs k = false) : dinsert fs k v = fs ++ [(k, v)] := by
  induction fs with
  | nil => rfl
  | cons p rest ih =>
      rcases p with ⟨pk, pv⟩
      rw [dhas_cons] at h
      rcases Bool.or_eq_false_iff.mp h with ⟨h1, h2⟩
      have hk : ¬pk = k := by simpa using h1
      rw [show dinsert ((pk, pv) :: rest) k v = (pk, pv) :: dinsert rest k v
            from by simp [dinsert, hk]]
      rw [ih h2]
      rfl

theorem forall_dinsert (Q : String × JVal → Prop) (fs : List (String × JVal))
    (k : String) (v : JVal) (hfs : ∀ p ∈ fs, Q p) (hkv : Q (k, v)) :
    ∀ p ∈ dinsert fs k v, Q p := by
  induction fs with
  | nil =>
      intro p hp
      rw [show dinsert [] k v = [(k, v)] from rfl] at hp
      rw [List.mem_singleton] at hp
      subst hp
      exact hkv
  | cons q rest ih =>
      rcases q with ⟨qk, qv⟩
      intro p hp
      by_cases hk : qk = k
      · subst hk
        rw [show dinsert ((qk, qv) :: rest) qk v = (qk, v) :: rest from by
              simp [dinsert]] at hp
        rcases List.mem_cons.mp hp with rfl | hp
        · exact hkv
        · exact hfs p (List.mem_cons_of_mem _ hp)
      · rw [show dinsert ((qk, qv) :: rest) k v = (qk, qv) :: dinsert rest k v
              from by simp [dinsert, hk]] at hp
        rcases List.mem_cons.mp hp with rfl | hp
        · exact hfs _ (List.mem_cons_self _ _)
        · exact ih (fun r hr => hfs r (List.mem_cons_of_mem _ hr)) p hp

end SchemaIdempotence

section SchemaIdempotenceB

theorem clean_obj (fs : List (String × JVal)) :
    clean_json_schema (.obj fs) = .obj (cleanObjFields fs) := by
  simp [clean_json_schema]

theorem clean_nonobj (v : JVal) (h : v.isObj = false) :
    clean_json_schema v = v := by
  cases v <;> simp [JVal.isObj] at h ⊢ <;> simp [clean_json_schema]

theorem typeScalar_shape (v : JVal) : ∃ s, typeScalar v = .str s := by
  cases v
  case arr ts =>
    cases h : ts.filterMap typeEntryKeep with
    | nil => exact ⟨"string", by unfold typeScalar; dsimp only; rw [h]⟩
    | cons t ts' => exact ⟨t, by unfold typeScalar; dsimp only; rw [h]⟩
  all_goals exact ⟨"string", rfl⟩

theorem cleanVal_not_arr (v : JVal) (h : v.isArr = false) :
    (cleanVal v).isArr = false := by
  cases v <;> simp [JVal.isArr] at h ⊢ <;>
    simp [cleanVal, clean_obj, JVal.isArr]

/-- The invariant satisfied by every key/value pair that the sanitiser ever
stores: the key survives a second pass, the value is a `cleanVal` fixed
point, and a `type` value is never a list. -/
def goodPair (p : String × JVal) : Prop :=
  isBadKey p.1 = false ∧ cleanVal p.2 = p.2 ∧ (p.1 = "type" → p.2.isArr = false)

theorem cleanFields_keys_nodup (vs : List String) :
    ∀ (l : List (String × JVal)) (acc : List (String × JVal)),
      (keysOf acc).Nodup → (keysOf (cleanFields vs acc l)).Nodup := by
  intro l
  induction l with
  | nil => intro acc h; simpa [cleanFields] using h
  | cons p rest ih =>
      rcases p with ⟨k, v⟩
      intro acc h
      rw [cleanFields]
      split
      · exact ih acc h
      · split
        · split
          · exact ih _ (nodup_keys_dinsert _ _ _ (nodup_keys_dinsert _ _ _ h))
          · exact ih _ (nodup_keys_dinsert _ _ _ h)
        · split
          · exact ih _ (nodup_keys_dinsert _ _ _ h)
          · exact ih _ (nodup_keys_dinsert _ _ _ h)

theorem cleanFields_good (vs : List String) :
    ∀ (l : List (String × JVal)) (acc : List (String × JVal)),
      (∀ p ∈ acc, goodPair p) →
      (∀ k v, (k, v) ∈ l → cleanVal (cleanVal v) = cleanVal v) →
      ∀ p ∈ cleanFields vs acc l, goodPair p := by
  intro l
  induction l with
  | nil => intro acc hacc _; simpa [cleanFields] using hacc
  | cons q rest ih =>
      rcases q with ⟨k, v⟩
      intro acc hacc hl
      have hlrest : ∀ k' v', (k', v') ∈ rest →
          cleanVal (cleanVal v') = cleanVal v' :=
        fun k' v' h => hl k' v' (List.mem_cons_of_mem _ h)
      rw [cleanFields]
      split
      · exact ih acc hacc hlrest
      · rename_i hbad
        rw [Bool.not_eq_true] at hbad
        split
        · rename_i htype
          obtain ⟨s, hs⟩ := typeScalar_shape v
          have hty : goodPair ("type", typeScalar v) := by
            rw [hs]
            refine ⟨?_, ?_, ?_⟩
            · show isBadKey "type" = false
              decide
            · show cleanVal (JVal.str s) = JVal.str s
              simp [cleanVal]
            · intro _
              show (JVal.str s).isArr = false
              rfl
          have hnul : goodPair ("nullable", JVal.bool true) := by
            refine ⟨?_, ?_, ?_⟩
            · show isBadKey "nullable" = false
              decide
            · show cleanVal (JVal.bool true) = JVal.bool true
              simp [cleanVal]
            · intro h
              exact absurd h (by decide)
          split
          · exact ih _ (forall_dinsert _ _ _ _
              (forall_dinsert _ _ _ _ hacc hty) hnul) hlrest
          · exact ih _ (forall_dinsert _ _ _ _ hacc hty) hlrest
        · rename_i hnotype
          split
          · rename_i hdesc
            have hkd : k = "description" :=
              beq_iff_eq.mp (Bool.and_eq_true_iff.mp hdesc).1
            subst hkd
            refine ih _ (forall_dinsert _ _ _ _ hacc ?_) hlrest
            refine ⟨?_, ?_, ?_⟩
            · show isBadKey "description" = false
              decide
            · show cleanVal (JVal.str (pyStr v ++ " (" ++
                  String.intercalate ", " vs ++ ")")) =
                JVal.str (pyStr v ++ " (" ++
                  String.intercalate ", " vs ++ ")")
              simp [cleanVal]
            · intro h
              exact absurd (show ("description" : String) = "type" from h)
                (by decide)
          · refine ih _ (forall_dinsert _ _ _ _ hacc ?_) hlrest
            refine ⟨hbad, hl k v (List.mem_cons_self _ _), ?_⟩
            intro hk
            subst hk
            have hva : v.isArr = false := by
              rw [Bool.not_eq_true, Bool.and_eq_false_iff] at hnotype
              rcases hnotype with hta | hta
              · exact absurd hta (by decide)
              · exact hta
            exact cleanVal_not_arr v hva

end SchemaIdempotenceB
section SchemaIdempotenceC

theorem descStep_good (vs : List String) (c : List (String × JVal))
    (hg : ∀ p ∈ c, goodPair p) : ∀ p ∈ descStep vs c, goodPair p := by
  rw [descStep]
  split
  · refine forall_dinsert _ _ _ _ hg ?_
    refine ⟨?_, ?_, ?_⟩
    · show isBadKey "description" = false
      decide
    · show cleanVal (JVal.str ("Validation: " ++ String.intercalate ", " vs)) =
        JVal.str ("Validation: " ++ String.intercalate ", " vs)
      simp [cleanVal]
    · intro h
      exact absurd (show ("description" : String) = "type" from h) (by decide)
  · exact hg

theorem typeStep_good (c : List (String × JVal))
    (hg : ∀ p ∈ c, goodPair p) : ∀ p ∈ typeStep c, goodPair p := by
  rw [typeStep]
  split
  · refine forall_dinsert _ _ _ _ hg ?_
    refine ⟨?_, ?_, ?_⟩
    · show isBadKey "type" = false
      decide
    · show cleanVal (JVal.str "object") = JVal.str "object"
      simp [cleanVal]
    · intro _
      rfl
  · exact hg

theorem cleanObjFields_good (fs : List (String × JVal))
    (hIH : ∀ k v, (k, v) ∈ fs → cleanVal (cleanVal v) = cleanVal v) :
    ∀ p ∈ cleanObjFields fs, goodPair p := by
  rw [cleanObjFields]
  exact typeStep_good _ (descStep_good _ _
    (cleanFields_good _ fs [] (by intro p hp; cases hp) hIH))

theorem descStep_nodup (vs : List String) (c : List (String × JVal))
    (h : (keysOf c).Nodup) : (keysOf (descStep vs c)).Nodup := by
  rw [descStep]
  split
  · exact nodup_keys_dinsert _ _ _ h
  · exact h

theorem typeStep_nodup (c : List (String × JVal))
    (h : (keysOf c).Nodup) : (keysOf (typeStep c)).Nodup := by
  rw [typeStep]
  split
  · exact nodup_keys_dinsert _ _ _ h
  · exact h

theorem cleanObjFields_nodup (fs : List (String × JVal)) :
    (keysOf (cleanObjFields fs)).Nodup := by
  rw [cleanObjFields]
  exact typeStep_nodup _ (descStep_nodup _ _
    (cleanFields_keys_nodup (collectValidations fs) fs [] (by simp [keysOf])))

theorem typeStep_closure (c : List (String × JVal)) :
    dhas (typeStep c) "properties" = true →
      dhas (typeStep c) "type" = true := by
  rw [typeStep]
  cases hp : dhas c "properties" <;> cases ht : dhas c "type" <;>
    simp [hp, ht, dhas_dinsert]

theorem cleanObjFields_type_closure (fs : List (String × JVal)) :
    dhas (cleanObjFields fs) "properties" = true →
      dhas (cleanObjFields fs) "type" = true := by
  rw [cleanObjFields]
  exact typeStep_closure _

theorem dhas_false_of_good (out : List (String × JVal)) (f : String)
    (hg : ∀ p ∈ out, goodPair p) (hf : isBadKey f = true) :
    dhas out f = false := by
  cases h : dhas out f
  · rfl
  · exfalso
    rw [dhas_iff_keys, keysOf, List.mem_map] at h
    obtain ⟨p, hp, hpf⟩ := h
    have := (hg p hp).1
    rw [hpf, hf] at this
    cases this

theorem collectValidations_empty (out : List (String × JVal))
    (hg : ∀ p ∈ out, goodPair p) : collectValidations out = [] := by
  have h1 := dhas_false_of_good out "minLength" hg (by decide)
  have h2 := dhas_false_of_good out "maxLength" hg (by decide)
  have h3 := dhas_false_of_good out "minimum" hg (by decide)
  have h4 := dhas_false_of_good out "maximum" hg (by decide)
  have h5 := dhas_false_of_good out "minItems" hg (by decide)
  have h6 := dhas_false_of_good out "maxItems" hg (by decide)
  simp [collectValidations, validationKeys, List.filterMap,
    h1, h2, h3, h4, h5, h6]

theorem cleanFields_id (out : List (String × JVal)) :
    ∀ acc, (keysOf (acc ++ out)).Nodup → (∀ p ∈ out, goodPair p) →
      cleanFields [] acc out = acc ++ out := by
  induction out with
  | nil => intro acc _ _; simp [cleanFields]
  | cons p rest ih =>
      rcases p with ⟨k, v⟩
      intro acc hnd hg
      obtain ⟨hbk, hcv, hta⟩ := hg (k, v) (List.mem_cons_self _ _)
      rw [cleanFields]
      rw [if_neg (by rw [hbk]; exact fun h => Bool.false_ne_true h)]
      have hnotype : (k == "type" && v.isArr) = false := by
        by_cases hk : k = "type"
        · subst hk
          rw [hta rfl, Bool.and_false]
        · rw [show (k == "type") = false from by simp [hk], Bool.false_and]
      rw [if_neg (by rw [hnotype]; exact fun h => Bool.false_ne_true h)]
      rw [if_neg (by simp)]
      have hfresh : dhas acc k = false := by
        cases hd : dhas acc k
        · rfl
        · exfalso
          rw [dhas_iff_keys] at hd
          rw [keysOf, List.map_append, List.nodup_append] at hnd
          exact hnd.2.2 hd (by simp [keysOf])
      rw [hcv, dinsert_fresh acc k v hfresh]
      rw [ih (acc ++ [(k, v)])
        (by rwa [List.append_assoc, List.singleton_append])
        (fun q hq => hg q (List.mem_cons_of_mem _ hq))]
      rw [List.append_assoc, List.singleton_append]

theorem typeStep_id (out : List (String × JVal))
    (hty : dhas out "properties" = true → dhas out "type" = true) :
    typeStep out = out := by
  rw [typeStep]
  cases hp : dhas out "properties"
  · rw [Bool.false_and]
    rfl
  · rw [hty hp]
    rfl

theorem cleanObjFields_id (out : List (String × JVal))
    (hnd : (keysOf out).Nodup) (hg : ∀ p ∈ out, goodPair p)
    (hty : dhas out "properties" = true → dhas out "type" = true) :
    cleanObjFields out = out := by
  rw [cleanObjFields, collectValidations_empty out hg]
  rw [show cleanFields [] [] out = [] ++ out from
        cleanFields_id out [] (by simpa [keysOf] using hnd) hg]
  rw [List.nil_append]
  rw [show descStep [] out = out from by rw [descStep]; simp]
  exact typeStep_id out hty

end SchemaIdempotenceC

section SchemaIdempotenceMain

theorem cleanItems_idem (items : List JVal)
    (h : ∀ x ∈ items, clean_json_schema (clean_json_schema x) =
      clean_json_schema x) :
    cleanItems (cleanItems items) = cleanItems items := by
  induction items with
  | nil => simp [cleanItems]
  | cons x rest ih =>
      have hx := h x (List.mem_cons_self _ _)
      have hrest := ih (fun y hy => h y (List.mem_cons_of_mem _ hy))
      cases x <;> simp_all [cleanItems, clean_obj]

theorem cleanVal_idem_of (m : Nat)
    (hm : ∀ u : JVal, sizeOf u ≤ m →
      clean_json_schema (clean_json_schema u) = clean_json_schema u)
    (w : JVal) (hw : sizeOf w ≤ m) :
    cleanVal (cleanVal w) = cleanVal w := by
  cases w
  case obj sub =>
    rw [show cleanVal (JVal.obj sub) = clean_json_schema (.obj sub) from by
          rw [cleanVal]]
    rw [clean_obj]
    rw [show cleanVal (JVal.obj (cleanObjFields sub)) =
          clean_json_schema (.obj (cleanObjFields sub)) from by rw [cleanVal]]
    rw [← clean_obj]
    exact hm _ hw
  case arr items =>
    rw [show cleanVal (JVal.arr items) = .arr (cleanItems items) from by
          rw [cleanVal]]
    rw [show cleanVal (JVal.arr (cleanItems items)) =
          .arr (cleanItems (cleanItems items)) from by rw [cleanVal]]
    rw [cleanItems_idem items ?_]
    intro x hx
    refine hm x ?_
    have h1 : sizeOf x < sizeOf items := List.sizeOf_lt_of_mem hx
    have h2 : sizeOf (JVal.arr items) = 1 + sizeOf items := by
      simp [JVal.arr.sizeOf_spec]
    omega
  all_goals simp [cleanVal]

theorem clean_idem_bounded :
    ∀ n : Nat, ∀ v : JVal, sizeOf v ≤ n →
      clean_json_schema (clean_json_schema v) = clean_json_schema v := by
  intro n
  induction n with
  | zero =>
      intro v hv
      exfalso
      cases v <;> simp_all
  | succ n ihn =>
      intro v hv
      cases v
      case obj fs =>
        have hfs : sizeOf fs ≤ n := by
          have : sizeOf (JVal.obj fs) = 1 + sizeOf fs := by
            simp [JVal.obj.sizeOf_spec]
          omega
        have hIH : ∀ k w, (k, w) ∈ fs →
            cleanVal (cleanVal w) = cleanVal w := by
          intro k w hmem
          refine cleanVal_idem_of n ihn w ?_
          have h1 : sizeOf (k, w) < sizeOf fs := List.sizeOf_lt_of_mem hmem
          have h2 : sizeOf (k, w) = 1 + sizeOf k + sizeOf w := by simp
          omega
        rw [clean_obj, clean_obj]
        rw [cleanObjFields_id (cleanObjFields fs) (cleanObjFields_nodup fs)
          (cleanObjFields_good fs hIH) (cleanObjFields_type_closure fs)]
      all_goals simp [clean_json_schema]

/-- C8: the schema sanitiser is idempotent — for every JSON value `x`
(dicts, lists, scalars, arbitrarily nested),
`clean_json_schema (clean_json_schema x) = clean_json_schema x`. -/
theorem c8_clean_json_schema_idempotent (x : JVal) :
    clean_json_schema (clean_json_schema x) = clean_json_schema x :=
  clean_idem_bounded (sizeOf x) x le_rfl

end SchemaIdempotenceMain

section Streaming

/-! ## `antigravity_sse_to_anthropic_sse` (src/a2c/core/streaming.py)

The translator consumes upstream SSE lines and yields Anthropic-format SSE
events.  A line is classified exactly as streaming.py lines 209-225 does:
lines not starting with `"data: "` are skipped, the payload `"[DONE]"`
breaks the loop, payloads that fail `json.loads` are skipped, and parsed
payloads drive the state machine.  `Line` captures that classification;
`Event` captures the emitted events (the fields that are constant per
stream — message id, model, role — are omitted from `Event.messageStart`;
no claim mentions them).  Credential recording (lines 216-220) performs no
output and is not modelled.  A run that raises is `Except.error`; the
`except` handler of lines 569-595 (synthesised `message_start` plus an
`error` event) lies outside the completed-stream runs the claims quantify
over. -/

/-- One upstream SSE line, as classified by streaming.py lines 209-225. -/
inductive Line where
  | other : Line
  | done : Line
  | bad : Line
  | data (j : JVal) : Line

/-- The kinds a block can have in `_current_block_type` (only `"text"` and
`"thinking"` are ever stored there; image and tool_use blocks are opened
and closed immediately without setting it). -/
inductive BKind where
  | text : BKind
  | thinking : BKind
deriving DecidableEq

/-- The payload of a `content_block_delta`. -/
inductive Delta where
  | textD (t : JVal)
  | thinkingD (t : JVal)
  | signatureD (s : JVal)
  | inputJsonD (s : String)

/-- The `content_block` carried by a `content_block_start`. -/
inductive BlockInfo where
  | text : BlockInfo
  | thinking (sig : Option JVal) : BlockInfo
  | toolUse (id : JVal) (name : JVal) : BlockInfo
  | image (mime : JVal) (data : JVal) : BlockInfo

/-- An emitted Anthropic streaming event. -/
inductive Event where
  | messageStart (inputTokens : Int) : Event
  | blockStart (idx : Int) (b : BlockInfo) : Event
  | blockDelta (idx : Int) (d : Delta) : Event
  | blockStop (idx : Int) : Event
  | messageDelta (stopReason : String) (inputTokens outputTokens : Int) : Event
  | messageStop : Event

/-- The `_StreamingState` fields together with the local loop variables of
`antigravity_sse_to_anthropic_sse` (`message_start_sent`, `pending_output`,
`thinking_text_buffer`). -/
structure SState where
  curBlockType : Option BKind := none
  curIndex : Int := -1
  curSig : JVal := .null
  hasToolUse : Bool := false
  inputTokens : Int := 0
  outputTokens : Int := 0
  hasInputTokens : Bool := false
  hasOutputTokens : Bool := false
  finishReason : Option String := none
  msgStartSent : Bool := false
  pending : List Event := []
  thinkBuffer : String := ""

/-- The per-stream configuration arguments of the translator. -/
structure SCfg where
  initialInputTokens : Int
  clientThinkingEnabled : Bool
  thinkingToText : Bool

/-- `max(0, int(initial_input_tokens or 0))` (streaming.py lines 139-142);
the argument is typed `int`, so the conversion cannot raise. -/
def clampedInitial (cfg : SCfg) : Int := max 0 cfg.initialInputTokens

/-- Yield an event: append to the output when `message_start` has been
sent, else buffer it in `pending_output` (the ubiquitous
`if message_start_sent: ready.append(evt) else: enqueue(evt)`). -/
def emit (evt : Event) : SState × List Event → SState × List Event
  | (st, out) =>
      if st.msgStartSent then (st, out ++ [evt])
      else ({st with pending := st.pending ++ [evt]}, out)

/-- `send_message_start` (streaming.py lines 178-204): emit `message_start`
once and flush the buffered events after it. -/
def sendMessageStart (tokens : Int) : SState × List Event → SState × List Event
  | (st, out) =>
      if st.msgStartSent then (st, out)
      else ({st with msgStartSent := true, pending := []},
            out ++ Event.messageStart tokens :: st.pending)

/-- `_StreamingState.close_block_if_open` (streaming.py lines 60-70),
combined with the caller's emit of the returned event. -/
def closeBlockIfOpen : SState × List Event → SState × List Event
  | (st, out) =>
      match st.curBlockType with
      | none => (st, out)
      | some _ =>
          emit (.blockStop st.curIndex)
            ({st with curBlockType := none, curSig := .null}, out)

/-- `open_text_block` (streaming.py lines 72-83) plus the caller's emit. -/
def openTextBlock : SState × List Event → SState × List Event
  | (st, out) =>
      emit (.blockStart (st.curIndex + 1) .text)
        ({st with curIndex := st.curIndex + 1, curBlockType := some .text},
          out)

/-- `open_thinking_block` (streaming.py lines 85-100) plus the caller's
emit. -/
def openThinkingBlock (sig : JVal) : SState × List Event → SState × List Event
  | (st, out) =>
      emit (.blockStart (st.curIndex + 1)
          (.thinking (if sig.truthy then some sig else none)))
        ({st with
            curIndex := st.curIndex + 1
            curBlockType := some .thinking
            curSig := sig}, out)

mutual

/-- Modelled from the spec: `remove_nulls_for_tool_input` lives in
`a2c/core/helpers.py`, which is not under src/ (only its import sites are).
Spec §4.D: "Before emitting `input_json_delta`, the arguments object is
recursively walked and keys whose value is `null` are removed." -/
def remove_nulls_for_tool_input : JVal → JVal
  | .obj fs => .obj (removeNullsFields fs)
  | .arr xs => .arr (removeNullsItems xs)
  | v => v

def removeNullsFields : List (String × JVal) → List (String × JVal)
  | [] => []
  | (k, v) :: rest =>
      match v with
      | .null => removeNullsFields rest
      | v => (k, remove_nulls_for_tool_input v) :: removeNullsFields rest

def removeNullsItems : List JVal → List JVal
  | [] => []
  | x :: rest => remove_nulls_for_tool_input x :: removeNullsItems rest

end

/-- `pick_usage_metadata` (streaming.py lines 144-167). -/
def usageScore (u : List (String × JVal)) : Nat :=
  (["promptTokenCount", "candidatesTokenCount", "totalTokenCount"].filter
    (fun f => dhas u f &&
      !(match dget u f .null with | .null => true | _ => false))).length

def pick_usage_metadata (rfs cfs : List (String × JVal)) :
    List (String × JVal) :=
  let response_usage :=
    match orElseJ (dget rfs "usageMetadata" (.obj [])) (.obj []) with
    | .obj u => u
    | _ => []
  let candidate_usage :=
    match orElseJ (dget cfs "usageMetadata" (.obj [])) (.obj []) with
    | .obj u => u
    | _ => []
  if usageScore candidate_usage > usageScore response_usage then
    candidate_usage
  else response_usage

end Streaming

section StreamingRun

/-- Is the current block a thinking block? -/
def isThinkingOpen (st : SState) : Bool :=
  match st.curBlockType with
  | some BKind.thinking => true
  | _ => false

/-- Is the current block a text block? -/
def isTextOpen (st : SState) : Bool :=
  match st.curBlockType with
  | some BKind.text => true
  | _ => false

/-- The signature-delta handling at the top of the part loop (streaming.py
lines 264-291): when the part carries a truthy `thoughtSignature`, the open
block is a thinking block and no signature was recorded yet, emit a
`signature_delta` and record `str(signature)`. -/
def signatureStep (fs : List (String × JVal)) (acc : SState × List Event) :
    SState × List Event :=
  let sig := dget fs "thoughtSignature" .null
  if sig.truthy && isThinkingOpen acc.1 && !acc.1.curSig.truthy then
    emit (.blockDelta acc.1.curIndex (.signatureD sig))
      ({acc.1 with curSig := .str (pyStr sig)}, acc.2)
  else acc

/-- `part.get("thought") is True` (streaming.py line 293). -/
def thoughtIsTrue (fs : List (String × JVal)) : Bool :=
  match dget fs "thought" .null with
  | .bool true => true
  | _ => false

/-- The thinking-part branch (streaming.py lines 293-335).  With client
thinking disabled, a truthy thinking text is buffered when
`thinking_to_text` is set (raising `TypeError` when the text is not a
string) and dropped otherwise; with it enabled, a thinking block is opened
if necessary and a `thinking_delta` emitted for a truthy text. -/
def thoughtBranch (cfg : SCfg) (fs : List (String × JVal))
    (acc : SState × List Event) : Except String (SState × List Event) :=
  let thinkingText := dget fs "text" (.str "")
  if !cfg.clientThinkingEnabled then
    (if cfg.thinkingToText && thinkingText.truthy then
      match thinkingText with
      | .str s =>
          .ok ({acc.1 with thinkBuffer := acc.1.thinkBuffer ++ s}, acc.2)
      | _ => .error "TypeError: can only concatenate str"
    else .ok acc)
  else
    let acc :=
      if isThinkingOpen acc.1 then acc
      else openThinkingBlock (dget fs "thoughtSignature" .null)
        (closeBlockIfOpen acc)
    .ok (if thinkingText.truthy then
          emit (.blockDelta acc.1.curIndex (.thinkingD thinkingText)) acc
        else acc)

/-- `isinstance(text, str) and not text.strip()` (streaming.py line 339). -/
def isBlankText (text : JVal) : Bool :=
  match text with
  | .str s => decide (pyStrip s = "")
  | _ => false

/-- The flush of a buffered thinking text into the current (text) block
(streaming.py lines 355-373). -/
def flushBufferIntoBlock (acc : SState × List Event) : SState × List Event :=
  if acc.1.thinkBuffer ≠ "" then
    emit (.blockDelta acc.1.curIndex (.textD (.str
        ("<assistant_thinking>\n" ++ acc.1.thinkBuffer ++
          "</assistant_thinking>\n\n"))))
      ({acc.1 with thinkBuffer := ""}, acc.2)
  else acc

/-- The text-part branch (streaming.py lines 337-388): whitespace-only
string texts are skipped; otherwise a text block is ensured, the thinking
buffer flushed, and a `text_delta` emitted for a truthy text. -/
def textBranch (fs : List (String × JVal)) (acc : SState × List Event) :
    Except String (SState × List Event) :=
  let text := dget fs "text" (.str "")
  if isBlankText text then .ok acc
  else
    let acc :=
      if isTextOpen acc.1 then acc
      else openTextBlock (closeBlockIfOpen acc)
    let acc := flushBufferIntoBlock acc
    .ok (if text.truthy then
          emit (.blockDelta acc.1.curIndex (.textD text)) acc
        else acc)

/-- The image-part branch (streaming.py lines 390-425): close any open
block, then emit an immediately-closed image block at the next index. -/
def imageBranch (fs : List (String × JVal)) (acc : SState × List Event) :
    Except String (SState × List Event) :=
  let acc := closeBlockIfOpen acc
  match orElseJ (dget fs "inlineData" (.obj [])) (.obj []) with
  | .obj infs =>
      let idx := acc.1.curIndex + 1
      let acc := ({acc.1 with curIndex := idx}, acc.2)
      let acc := emit (.blockStart idx
        (.image (dget infs "mimeType" (.str "image/png"))
          (dget infs "data" (.str "")))) acc
      .ok (emit (.blockStop idx) acc)
  | _ => .error "AttributeError: inlineData is not a dict"

/-- The tool-call branch (streaming.py lines 427-481): close any open
block, record `has_tool_use`, and emit a start/`input_json_delta`/stop
triple at the next index.  The generated fallback tool id
`f"toolu_{uuid4().hex}"` is modelled by the fixed string
`"toolu_generated"` (its value bears on no claim). -/
def toolBranch (fs : List (String × JVal)) (acc : SState × List Event) :
    Except String (SState × List Event) :=
  let acc := closeBlockIfOpen acc
  let acc := ({acc.1 with hasToolUse := true}, acc.2)
  match orElseJ (dget fs "functionCall" (.obj [])) (.obj []) with
  | .obj fcs =>
      let toolId := orElseJ (dget fcs "id" .null) (.str "toolu_generated")
      let toolName := orElseJ (dget fcs "name" .null) (.str "")
      let toolArgs := remove_nulls_for_tool_input
        (orElseJ (dget fcs "args" (.obj [])) (.obj []))
      let idx := acc.1.curIndex + 1
      let acc := ({acc.1 with curIndex := idx}, acc.2)
      let acc := emit (.blockStart idx (.toolUse toolId toolName)) acc
      let acc := emit (.blockDelta idx (.inputJsonD (jdump toolArgs))) acc
      .ok (emit (.blockStop idx) acc)
  | _ => .error "AttributeError: functionCall is not a dict"

/-- Processing of one upstream part (the body of the `for part in parts`
loop, streaming.py lines 248-481): non-dict parts are skipped; otherwise
the signature step runs, then exactly one of the thinking / text / image /
tool-call branches (in the source's order of tests). -/
def processPart (cfg : SCfg) (acc : SState × List Event) (part : JVal) :
    Except String (SState × List Event) :=
  match part with
  | .obj fs =>
      let acc := signatureStep fs acc
      if thoughtIsTrue fs then thoughtBranch cfg fs acc
      else if dhas fs "text" then textBranch fs acc
      else if dhas fs "inlineData" then imageBranch fs acc
      else if dhas fs "functionCall" then toolBranch fs acc
      else .ok acc
  | _ => .ok acc

/-- `if "promptTokenCount" in usage: state.input_tokens = int(...)`
(streaming.py lines 235-237). -/
def capturePrompt (usage : List (String × JVal)) (st : SState) :
    Except String SState :=
  if dhas usage "promptTokenCount" then
    match pyToInt (orElseJ (dget usage "promptTokenCount" (.int 0))
        (.int 0)) with
    | some n => .ok {st with inputTokens := n, hasInputTokens := true}
    | none => .error "int() conversion failed"
  else .ok st

/-- `if "candidatesTokenCount" in usage: state.output_tokens = int(...)`
(streaming.py lines 238-242). -/
def captureCandidates (usage : List (String × JVal)) (st : SState) :
    Except String SState :=
  if dhas usage "candidatesTokenCount" then
    match pyToInt (orElseJ (dget usage "candidatesTokenCount" (.int 0))
        (.int 0)) with
    | some n => .ok {st with outputTokens := n, hasOutputTokens := true}
    | none => .error "int() conversion failed"
  else .ok st

/-- The usage capture of streaming.py lines 231-242. -/
def captureUsage (usage : List (String × JVal)) (st : SState) :
    Except String SState :=
  match capturePrompt usage st with
  | .error e => .error e
  | .ok st1 => captureCandidates usage st1

/-- Processing of one upstream line (streaming.py lines 207-491).  The
returned `Bool` is true when the loop breaks (`[DONE]` or a truthy
`finishReason`).  `Except.error` models an exception raised on that line
(attribute/index errors on ill-shaped payloads, failed `int()`
conversions, or a part-level error). -/
def processLine (cfg : SCfg) (acc : SState × List Event) (line : Line) :
    Except String (SState × List Event × Bool) :=
  match line with
  | .other => .ok (acc.1, acc.2, false)
  | .bad => .ok (acc.1, acc.2, false)
  | .done => .ok (acc.1, acc.2, true)
  | .data j =>
      match j with
      | .obj jfs =>
          (match orElseJ (dget jfs "response" (.obj [])) (.obj []) with
          | .obj rfs =>
              (match orElseJ (dget rfs "candidates" (.arr []))
                  (.arr [.obj []]) with
              | .arr (c0 :: _) =>
                  (match orElseJ c0 (.obj []) with
                  | .obj cfs =>
                      (match orElseJ (dget cfs "content" (.obj []))
                          (.obj []) with
                      | .obj ctfs =>
                          (match pyIterElems
                              (orElseJ (dget ctfs "parts" (.arr []))
                                (.arr [])) with
                          | .error e => .error e
                          | .ok parts =>
                              (match captureUsage
                                  (pick_usage_metadata rfs cfs) acc.1 with
                              | .error e => .error e
                              | .ok st =>
                                  let acc :=
                                    if st.hasInputTokens &&
                                        !st.msgStartSent then
                                      sendMessageStart st.inputTokens
                                        (st, acc.2)
                                    else (st, acc.2)
                                  (match parts.foldlM (processPart cfg)
                                      acc with
                                  | .error e => .error e
                                  | .ok acc =>
                                      let fr := dget cfs "finishReason" .null
                                      if fr.truthy then
                                        .ok ({acc.1 with
                                            finishReason :=
                                              some (pyStr fr)},
                                          acc.2, true)
                                      else .ok (acc.1, acc.2, false))))
                      | _ => .error "AttributeError: content is not a dict")
                  | _ => .error "AttributeError: candidate is not a dict")
              | _ => .error "TypeError: candidates is not indexable")
          | _ => .error "AttributeError: response is not a dict")
      | _ => .error "AttributeError: payload is not a dict"

/-- The `async for line in lines` loop. -/
def runLines (cfg : SCfg) : SState × List Event → List Line →
    Except String (SState × List Event)
  | acc, [] => .ok acc
  | acc, l :: rest =>
      match processLine cfg acc l with
      | .error e => .error e
      | .ok (st, out, brk) =>
          if brk then .ok (st, out) else runLines cfg (st, out) rest

/-- The final flush of a leftover thinking buffer (streaming.py lines
493-524): close any open block, open a fresh text block, and emit the
buffered text wrapped in `<assistant_thinking>` tags (here with no trailing
newlines). -/
def flushBufferFinal (acc : SState × List Event) : SState × List Event :=
  if acc.1.thinkBuffer ≠ "" then
    let acc := closeBlockIfOpen acc
    let acc := openTextBlock acc
    emit (.blockDelta acc.1.curIndex (.textD (.str
        ("<assistant_thinking>\n" ++ acc.1.thinkBuffer ++
          "</assistant_thinking>")))) acc
  else acc

/-- `send_message_start` with the clamped fallback tokens when it was never
sent during the stream (streaming.py lines 533-538). -/
def ensureStart (cfg : SCfg) (acc : SState × List Event) :
    SState × List Event :=
  if !acc.1.msgStartSent then sendMessageStart (clampedInitial cfg) acc
  else acc

/-- `stop_reason` of the final `message_delta` (streaming.py lines
540-542). -/
def stopReasonOf (st : SState) : String :=
  if st.hasToolUse then "tool_use"
  else if st.finishReason = some "MAX_TOKENS" then "max_tokens"
  else "end_turn"

/-- `usage.input_tokens` of the final `message_delta` (streaming.py lines
558-560). -/
def finalInTokens (cfg : SCfg) (st : SState) : Int :=
  if st.hasInputTokens then st.inputTokens else clampedInitial cfg

/-- `usage.output_tokens` of the final `message_delta` (streaming.py lines
561-563). -/
def finalOutTokens (st : SState) : Int :=
  if st.hasOutputTokens then st.outputTokens else 0

/-- The stream epilogue (streaming.py lines 493-567): flush a pending
thinking buffer as a wrapped text block, close any open block, synthesise
`message_start` if it was never sent, then emit `message_delta` and
`message_stop`.  The token-count and stop-reason state fields read by the
final `message_delta` are untouched by the preceding epilogue steps, so
they are read off the incoming state. -/
def epilogue (cfg : SCfg) (acc : SState × List Event) : List Event :=
  let acc' := ensureStart cfg (closeBlockIfOpen (flushBufferFinal acc))
  (emit .messageStop
    (emit (.messageDelta (stopReasonOf acc.1) (finalInTokens cfg acc.1)
      (finalOutTokens acc.1)) acc')).2

/-- The whole translator on a finite upstream line sequence: the event
sequence it yields, or `Except.error` when the Python raises. -/
def translateStream (cfg : SCfg) (lines : List Line) :
    Except String (List Event) :=
  match runLines cfg ({}, []) lines with
  | .error e => .error e
  | .ok acc => .ok (epilogue cfg acc)

end StreamingRun

section StreamGrammar

/-! ## The event grammar of a completed stream

`cursor` abstracts the block-structure part of the state: the current
block index and whether a block is open.  `BStep`/`BTrace` describe how a
list of block events moves the cursor; `Body` is the grammar of the claim:
a sequence of complete blocks with dense, strictly increasing indices,
each one `content_block_start`, then deltas, then its
`content_block_stop`. -/

def cursor (st : SState) : Int × Bool := (st.curIndex, st.curBlockType.isSome)

inductive BStep : Int × Bool → Event → Int × Bool → Prop where
  | start (i : Int) (b : BlockInfo) :
      BStep (i, false) (.blockStart (i + 1) b) (i + 1, true)
  | delta (i : Int) (d : Delta) : BStep (i, true) (.blockDelta i d) (i, true)
  | stop (i : Int) : BStep (i, true) (.blockStop i) (i, false)

inductive BTrace : Int × Bool → List Event → Int × Bool → Prop where
  | nil (c : Int × Bool) : BTrace c [] c
  | cons {c c' c'' : Int × Bool} {e : Event} {evs : List Event} :
      BStep c e c' → BTrace c' evs c'' → BTrace c (e :: evs) c''

inductive Body : Int → List Event → Prop where
  | nil (n : Int) : Body n []
  | block (n : Int) (b : BlockInfo) (ds rest : List Event) :
      (∀ e ∈ ds, ∃ d, e = Event.blockDelta n d) → Body (n + 1) rest →
      Body n (Event.blockStart n b :: (ds ++ Event.blockStop n :: rest))

theorem btrace_append {c c' c'' : Int × Bool} {evs evs2 : List Event}
    (h1 : BTrace c evs c') (h2 : BTrace c' evs2 c'') :
    BTrace c (evs ++ evs2) c'' := by
  induction h1 with
  | nil => simpa using h2
  | cons hs _ ih => exact .cons hs (ih h2)

theorem btrace_open_split :
    ∀ (evs : List Event) {n k : Int}, BTrace (n, true) evs (k, false) →
      ∃ ds rest, evs = ds ++ Event.blockStop n :: rest ∧
        (∀ e ∈ ds, ∃ d, e = Event.blockDelta n d) ∧
        BTrace (n, false) rest (k, false) := by
  intro evs
  induction evs with
  | nil =>
      intro n k h
      cases h
  | cons e evs ih =>
      intro n k h
      cases h with
      | cons hs htail =>
          cases hs with
          | delta _ d =>
              obtain ⟨ds, rest, hevs, hds, hrest⟩ := ih htail
              refine ⟨Event.blockDelta n d :: ds, rest, by rw [hevs]; rfl,
                ?_, hrest⟩
              intro x hx
              rcases List.mem_cons.mp hx with hx | hx
              · exact ⟨d, hx⟩
              · exact hds x hx
          | stop _ => exact ⟨[], evs, rfl, by simp, htail⟩

theorem btrace_body_bounded :
    ∀ (m : Nat) (evs : List Event) {n k : Int}, evs.length ≤ m →
      BTrace (n, false) evs (k, false) → Body (n + 1) evs := by
  intro m
  induction m with
  | zero =>
      intro evs n k hlen h
      have : evs = [] := List.length_eq_zero.mp (Nat.le_zero.mp hlen)
      subst this
      exact .nil _
  | succ m ih =>
      intro evs n k hlen h
      cases h with
      | nil => exact .nil _
      | cons hs htail =>
          cases hs with
          | start _ b =>
              obtain ⟨ds, rest, hevs, hds, hrest⟩ :=
                btrace_open_split _ htail
              subst hevs
              have hlen' : rest.length ≤ m := by
                simp [List.length_append] at hlen
                omega
              have hbody := ih rest hlen' hrest
              exact .block (n + 1) b ds rest hds hbody

theorem btrace_body {evs : List Event} {n k : Int}
    (h : BTrace (n, false) evs (k, false)) : Body (n + 1) evs :=
  btrace_body_bounded evs.length evs (Nat.le_refl _) h

end StreamGrammar

section StreamInv

/-! ## The run invariant

`Inv` relates the machine state to the stream emitted so far: the block
events generated so far form a `BTrace` from the initial cursor `(-1,
false)` to the state's cursor; before `message_start` is sent they sit in
the pending buffer and nothing has been output, afterwards the output is
`message_start` followed by exactly those events and the buffer is empty.
`Extends` captures what one emitting step (a part, a branch) does: it
appends a `BTrace`-consistent event burst to the proper side while leaving
the send flag and the input-token fields alone. -/

def SInv (a : SState × List Event) : Prop :=
  ∃ evs, BTrace (-1, false) evs (cursor a.1) ∧
    (a.1.msgStartSent = true →
      a.1.pending = [] ∧ ∃ t, a.2 = Event.messageStart t :: evs) ∧
    (a.1.msgStartSent = false → a.2 = [] ∧ a.1.pending = evs)

def Extends (a a' : SState × List Event) : Prop :=
  ∃ evs, BTrace (cursor a.1) evs (cursor a'.1) ∧
    a'.1.msgStartSent = a.1.msgStartSent ∧
    a'.1.hasInputTokens = a.1.hasInputTokens ∧
    a'.1.inputTokens = a.1.inputTokens ∧
    (a.1.msgStartSent = true →
      a'.1.pending = a.1.pending ∧ a'.2 = a.2 ++ evs) ∧
    (a.1.msgStartSent = false →
      a'.2 = a.2 ∧ a'.1.pending = a.1.pending ++ evs)

theorem extends_refl (a : SState × List Event) : Extends a a :=
  ⟨[], .nil _, rfl, rfl, rfl, fun _ => ⟨rfl, by simp⟩, fun _ => ⟨rfl, by simp⟩⟩

theorem extends_trans {a b c : SState × List Event}
    (h1 : Extends a b) (h2 : Extends b c) : Extends a c := by
  obtain ⟨evs1, ht1, hs1, hi1, hv1, hp1, hq1⟩ := h1
  obtain ⟨evs2, ht2, hs2, hi2, hv2, hp2, hq2⟩ := h2
  refine ⟨evs1 ++ evs2, btrace_append ht1 ht2, hs2.trans hs1,
    hi2.trans hi1, hv2.trans hv1, ?_, ?_⟩
  · intro hsent
    have hbsent : b.1.msgStartSent = true := hs1.trans hsent
    obtain ⟨hpa, hoa⟩ := hp1 hsent
    obtain ⟨hpb, hob⟩ := hp2 hbsent
    exact ⟨hpb.trans hpa, by rw [hob, hoa, List.append_assoc]⟩
  · intro hsent
    have hbsent : b.1.msgStartSent = false := hs1.trans hsent
    obtain ⟨hoa, hpa⟩ := hq1 hsent
    obtain ⟨hob, hpb⟩ := hq2 hbsent
    exact ⟨hob.trans hoa, by rw [hpb, hpa, List.append_assoc]⟩

theorem inv_extends {a a' : SState × List Event}
    (hI : SInv a) (hE : Extends a a') : SInv a' := by
  obtain ⟨evs0, ht0, hp0, hq0⟩ := hI
  obtain ⟨evs1, ht1, hs1, _, _, hp1, hq1⟩ := hE
  refine ⟨evs0 ++ evs1, btrace_append ht0 ht1, ?_, ?_⟩
  · intro hsent
    have hsa : a.1.msgStartSent = true := by rw [← hs1, hsent]
    obtain ⟨hpa, t, hoa⟩ := hp0 hsa
    obtain ⟨hpb, hob⟩ := hp1 hsa
    exact ⟨hpb.trans hpa, t, by rw [hob, hoa]; rfl⟩
  · intro hsent
    have hsa : a.1.msgStartSent = false := by rw [← hs1, hsent]
    obtain ⟨hoa, hpa⟩ := hq0 hsa
    obtain ⟨hob, hpb⟩ := hq1 hsa
    exact ⟨hob.trans hoa, by rw [hpb, hpa]⟩

end StreamInv

section StreamOps

/-! ## What each emitting operation does, as an `Extends` step -/

theorem emit_sent {st : SState} {out : List Event} {e : Event}
    (h : st.msgStartSent = true) : emit e (st, out) = (st, out ++ [e]) := by
  simp [emit, h]

theorem emit_unsent {st : SState} {out : List Event} {e : Event}
    (h : st.msgStartSent = false) :
    emit e (st, out) = ({st with pending := st.pending ++ [e]}, out) := by
  simp [emit, h]

theorem extends_emit_one {st st' : SState} {out : List Event} {e : Event}
    (hstep : BStep (cursor st) e (cursor st'))
    (hsent : st'.msgStartSent = st.msgStartSent)
    (hin : st'.hasInputTokens = st.hasInputTokens)
    (hit : st'.inputTokens = st.inputTokens)
    (hpend : st'.pending = st.pending) :
    Extends (st, out) (emit e (st', out)) := by
  cases hs : st.msgStartSent with
  | true =>
      rw [emit_sent (hsent.trans hs)]
      refine ⟨[e], .cons hstep (.nil _), hsent, hin, hit, ?_, ?_⟩
      · intro _
        exact ⟨hpend, rfl⟩
      · intro hf
        rw [hs] at hf
        cases hf
  | false =>
      rw [emit_unsent (hsent.trans hs)]
      refine ⟨[e], .cons hstep (.nil _), hsent, hin, hit, ?_, ?_⟩
      · intro hf
        rw [hs] at hf
        cases hf
      · intro _
        refine ⟨rfl, ?_⟩
        show st'.pending ++ [e] = st.pending ++ [e]
        rw [hpend]

theorem extends_still {st st' : SState} {out : List Event}
    (hcur : cursor st' = cursor st)
    (hsent : st'.msgStartSent = st.msgStartSent)
    (hin : st'.hasInputTokens = st.hasInputTokens)
    (hit : st'.inputTokens = st.inputTokens)
    (hpend : st'.pending = st.pending) :
    Extends (st, out) (st', out) :=
  ⟨[], by rw [hcur]; exact .nil _, hsent, hin, hit,
    fun _ => ⟨hpend, by simp⟩, fun _ => ⟨rfl, by rw [hpend]; simp⟩⟩

theorem isThinkingOpen_some {st : SState} (h : isThinkingOpen st = true) :
    st.curBlockType = some BKind.thinking := by
  unfold isThinkingOpen at h
  cases hbt : st.curBlockType with
  | none => rw [hbt] at h; cases h
  | some k =>
      rw [hbt] at h
      cases k with
      | text => cases h
      | thinking => rfl

theorem isTextOpen_some {st : SState} (h : isTextOpen st = true) :
    st.curBlockType = some BKind.text := by
  unfold isTextOpen at h
  cases hbt : st.curBlockType with
  | none => rw [hbt] at h; cases h
  | some k =>
      rw [hbt] at h
      cases k with
      | text => rfl
      | thinking => cases h

theorem close_none {st : SState} {out : List Event}
    (h : st.curBlockType = none) : closeBlockIfOpen (st, out) = (st, out) := by
  simp [closeBlockIfOpen, h]

theorem close_some {st : SState} {out : List Event} {k : BKind}
    (h : st.curBlockType = some k) :
    closeBlockIfOpen (st, out) = emit (.blockStop st.curIndex)
      ({st with curBlockType := none, curSig := .null}, out) := by
  simp [closeBlockIfOpen, h]

theorem openText_eq {st : SState} {out : List Event} :
    openTextBlock (st, out) = emit (.blockStart (st.curIndex + 1) .text)
      ({st with
        curIndex := st.curIndex + 1
        curBlockType := some .text}, out) := rfl

theorem openThinking_eq {sig : JVal} {st : SState} {out : List Event} :
    openThinkingBlock sig (st, out) =
      emit (.blockStart (st.curIndex + 1)
          (.thinking (if sig.truthy then some sig else none)))
        ({st with
          curIndex := st.curIndex + 1
          curBlockType := some .thinking
          curSig := sig}, out) := rfl

theorem emit_fst_fields {st : SState} {out : List Event} {e : Event} :
    (emit e (st, out)).1.curBlockType = st.curBlockType ∧
    (emit e (st, out)).1.curIndex = st.curIndex ∧
    (emit e (st, out)).1.msgStartSent = st.msgStartSent := by
  cases hs : st.msgStartSent with
  | true => rw [emit_sent hs]; exact ⟨rfl, rfl, hs⟩
  | false => rw [emit_unsent hs]; exact ⟨rfl, rfl, hs⟩

theorem extends_close (a : SState × List Event) :
    Extends a (closeBlockIfOpen a) := by
  obtain ⟨st, out⟩ := a
  cases hbt : st.curBlockType with
  | none => rw [close_none hbt]; exact extends_refl _
  | some k =>
      rw [close_some hbt]
      refine extends_emit_one ?_ rfl rfl rfl rfl
      show BStep (st.curIndex, st.curBlockType.isSome) _
        (st.curIndex, Option.isSome (none : Option BKind))
      rw [hbt]
      exact .stop st.curIndex

theorem close_type (a : SState × List Event) :
    (closeBlockIfOpen a).1.curBlockType = none := by
  obtain ⟨st, out⟩ := a
  cases hbt : st.curBlockType with
  | none => rw [close_none hbt]; exact hbt
  | some k => rw [close_some hbt]; exact emit_fst_fields.1

theorem extends_openText {st : SState} {out : List Event}
    (h : st.curBlockType = none) :
    Extends (st, out) (openTextBlock (st, out)) := by
  rw [openText_eq]
  refine extends_emit_one ?_ rfl rfl rfl rfl
  show BStep (st.curIndex, st.curBlockType.isSome) _
    (st.curIndex + 1, Option.isSome (some BKind.text))
  rw [h]
  exact .start st.curIndex .text

theorem openText_type (a : SState × List Event) :
    (openTextBlock a).1.curBlockType = some BKind.text := by
  obtain ⟨st, out⟩ := a
  rw [openText_eq]
  exact emit_fst_fields.1

theorem openText_index (a : SState × List Event) :
    (openTextBlock a).1.curIndex = a.1.curIndex + 1 := by
  obtain ⟨st, out⟩ := a
  rw [openText_eq]
  exact emit_fst_fields.2.1

theorem extends_openThinking {st : SState} {out : List Event} (sig : JVal)
    (h : st.curBlockType = none) :
    Extends (st, out) (openThinkingBlock sig (st, out)) := by
  rw [openThinking_eq]
  refine extends_emit_one ?_ rfl rfl rfl rfl
  show BStep (st.curIndex, st.curBlockType.isSome) _
    (st.curIndex + 1, Option.isSome (some BKind.thinking))
  rw [h]
  exact .start st.curIndex _

theorem openThinking_type (sig : JVal) (a : SState × List Event) :
    (openThinkingBlock sig a).1.curBlockType = some BKind.thinking := by
  obtain ⟨st, out⟩ := a
  rw [openThinking_eq]
  exact emit_fst_fields.1

end StreamOps

section StreamBranches

/-! ## Each part-loop branch is an `Extends` step -/

theorem extends_emit_two {st st' : SState} {out : List Event} {e1 e2 : Event}
    {c : Int × Bool}
    (h1 : BStep (cursor st) e1 c) (h2 : BStep c e2 (cursor st'))
    (hsent : st'.msgStartSent = st.msgStartSent)
    (hin : st'.hasInputTokens = st.hasInputTokens)
    (hit : st'.inputTokens = st.inputTokens)
    (hpend : st'.pending = st.pending) :
    Extends (st, out) (emit e2 (emit e1 (st', out))) := by
  have htr : BTrace (cursor st) [e1, e2] (cursor st') :=
    .cons h1 (.cons h2 (.nil _))
  cases hs : st.msgStartSent with
  | true =>
      rw [emit_sent (hsent.trans hs), emit_sent (hsent.trans hs)]
      refine ⟨[e1, e2], htr, hsent, hin, hit, ?_, ?_⟩
      · intro _
        exact ⟨hpend, by simp⟩
      · intro hf
        rw [hs] at hf
        cases hf
  | false =>
      have hu1 : emit e1 (st', out) =
          ({st' with pending := st'.pending ++ [e1]}, out) :=
        emit_unsent (hsent.trans hs)
      have hu2 : emit e2 ({st' with pending := st'.pending ++ [e1]}, out) =
          ({st' with pending := (st'.pending ++ [e1]) ++ [e2]}, out) :=
        emit_unsent (hsent.trans hs)
      rw [hu1, hu2]
      refine ⟨[e1, e2], htr, hsent, hin, hit, ?_, ?_⟩
      · intro hf
        rw [hs] at hf
        cases hf
      · intro _
        refine ⟨rfl, ?_⟩
        show (st'.pending ++ [e1]) ++ [e2] = st.pending ++ [e1, e2]
        rw [hpend]
        simp

theorem extends_emit_three {st st' : SState} {out : List Event}
    {e1 e2 e3 : Event} {c d : Int × Bool}
    (h1 : BStep (cursor st) e1 c) (h2 : BStep c e2 d)
    (h3 : BStep d e3 (cursor st'))
    (hsent : st'.msgStartSent = st.msgStartSent)
    (hin : st'.hasInputTokens = st.hasInputTokens)
    (hit : st'.inputTokens = st.inputTokens)
    (hpend : st'.pending = st.pending) :
    Extends (st, out) (emit e3 (emit e2 (emit e1 (st', out)))) := by
  have htr : BTrace (cursor st) [e1, e2, e3] (cursor st') :=
    .cons h1 (.cons h2 (.cons h3 (.nil _)))
  cases hs : st.msgStartSent with
  | true =>
      rw [emit_sent (hsent.trans hs), emit_sent (hsent.trans hs),
        emit_sent (hsent.trans hs)]
      refine ⟨[e1, e2, e3], htr, hsent, hin, hit, ?_, ?_⟩
      · intro _
        exact ⟨hpend, by simp⟩
      · intro hf
        rw [hs] at hf
        cases hf
  | false =>
      have hu1 : emit e1 (st', out) =
          ({st' with pending := st'.pending ++ [e1]}, out) :=
        emit_unsent (hsent.trans hs)
      have hu2 : emit e2 ({st' with pending := st'.pending ++ [e1]}, out) =
          ({st' with pending := (st'.pending ++ [e1]) ++ [e2]}, out) :=
        emit_unsent (hsent.trans hs)
      have hu3 : emit e3
          ({st' with pending := (st'.pending ++ [e1]) ++ [e2]}, out) =
          ({st' with
            pending := ((st'.pending ++ [e1]) ++ [e2]) ++ [e3]}, out) :=
        emit_unsent (hsent.trans hs)
      rw [hu1, hu2, hu3]
      refine ⟨[e1, e2, e3], htr, hsent, hin, hit, ?_, ?_⟩
      · intro hf
        rw [hs] at hf
        cases hf
      · intro _
        refine ⟨rfl, ?_⟩
        show ((st'.pending ++ [e1]) ++ [e2]) ++ [e3] = st.pending ++ [e1, e2, e3]
        rw [hpend]
        simp

theorem signatureStep_extends (fs : List (String × JVal))
    (a : SState × List Event) : Extends a (signatureStep fs a) := by
  obtain ⟨st, out⟩ := a
  unfold signatureStep
  dsimp only
  split
  next h =>
      have hth : isThinkingOpen st = true := by
        simp only [Bool.and_eq_true] at h
        exact h.1.2
      have hbt := isThinkingOpen_some hth
      refine extends_emit_one ?_ rfl rfl rfl rfl
      show BStep (st.curIndex, st.curBlockType.isSome) _
        (st.curIndex, st.curBlockType.isSome)
      rw [hbt]
      exact .delta st.curIndex _
  next => exact extends_refl _

theorem extends_ensure_thinking (sig : JVal) (a : SState × List Event) :
    Extends a
      (if isThinkingOpen a.1 then a
        else openThinkingBlock sig (closeBlockIfOpen a)) ∧
    (if isThinkingOpen a.1 then a
        else openThinkingBlock sig (closeBlockIfOpen a)).1.curBlockType =
      some BKind.thinking := by
  by_cases hth : isThinkingOpen a.1 = true
  · rw [if_pos hth]
    exact ⟨extends_refl _, isThinkingOpen_some hth⟩
  · rw [if_neg hth]
    constructor
    · exact extends_trans (extends_close _)
        (extends_openThinking sig (close_type _))
    · exact openThinking_type _ _

theorem extends_ensure_text (a : SState × List Event) :
    Extends a (if isTextOpen a.1 then a else openTextBlock (closeBlockIfOpen a)) ∧
    (if isTextOpen a.1 then a
        else openTextBlock (closeBlockIfOpen a)).1.curBlockType =
      some BKind.text := by
  by_cases hth : isTextOpen a.1 = true
  · rw [if_pos hth]
    exact ⟨extends_refl _, isTextOpen_some hth⟩
  · rw [if_neg hth]
    constructor
    · exact extends_trans (extends_close _)
        (extends_openText (close_type _))
    · exact openText_type _

theorem extends_flush {a : SState × List Event}
    (h : a.1.curBlockType.isSome = true) :
    Extends a (flushBufferIntoBlock a) ∧
    (flushBufferIntoBlock a).1.curBlockType = a.1.curBlockType := by
  obtain ⟨st, out⟩ := a
  unfold flushBufferIntoBlock
  dsimp only
  split
  next hbuf =>
      constructor
      · refine extends_emit_one ?_ rfl rfl rfl rfl
        show BStep (st.curIndex, st.curBlockType.isSome) _
          (st.curIndex, st.curBlockType.isSome)
        rw [h]
        exact .delta st.curIndex _
      · exact emit_fst_fields.1
  next => exact ⟨extends_refl _, rfl⟩

end StreamBranches

section StreamPartSpec

theorem thoughtBranch_extends {cfg : SCfg} {fs : List (String × JVal)}
    {a a' : SState × List Event} (h : thoughtBranch cfg fs a = .ok a') :
    Extends a a' := by
  unfold thoughtBranch at h
  dsimp only at h
  split at h
  next =>
      split at h
      next =>
          split at h
          next s =>
              injection h with h
              subst h
              exact extends_still rfl rfl rfl rfl rfl
          next => cases h
      next =>
          injection h with h
          subst h
          exact extends_refl _
  next =>
      injection h with h
      subst h
      set A := if isThinkingOpen a.1 then a
        else openThinkingBlock (dget fs "thoughtSignature" .null)
          (closeBlockIfOpen a) with hAdef
      obtain ⟨hA, hAty⟩ :=
        extends_ensure_thinking (dget fs "thoughtSignature" .null) a
      rw [← hAdef] at hA hAty
      split
      · refine extends_trans hA (extends_emit_one ?_ rfl rfl rfl rfl)
        show BStep (A.1.curIndex, A.1.curBlockType.isSome) _
          (A.1.curIndex, A.1.curBlockType.isSome)
        rw [hAty]
        exact .delta A.1.curIndex _
      · exact hA

theorem textBranch_extends {fs : List (String × JVal)}
    {a a' : SState × List Event} (h : textBranch fs a = .ok a') :
    Extends a a' := by
  unfold textBranch at h
  dsimp only at h
  split at h
  next =>
      injection h with h
      subst h
      exact extends_refl _
  next =>
      injection h with h
      subst h
      set A := if isTextOpen a.1 then a
        else openTextBlock (closeBlockIfOpen a) with hAdef
      obtain ⟨hA, hAty⟩ := extends_ensure_text a
      rw [← hAdef] at hA hAty
      have hAiso : A.1.curBlockType.isSome = true := by rw [hAty]; rfl
      obtain ⟨hF, hFty⟩ := extends_flush hAiso
      have hext := extends_trans hA hF
      have hFiso : (flushBufferIntoBlock A).1.curBlockType.isSome = true := by
        rw [hFty, hAty]; rfl
      split
      · refine extends_trans hext (extends_emit_one ?_ rfl rfl rfl rfl)
        show BStep ((flushBufferIntoBlock A).1.curIndex,
            (flushBufferIntoBlock A).1.curBlockType.isSome) _
          ((flushBufferIntoBlock A).1.curIndex,
            (flushBufferIntoBlock A).1.curBlockType.isSome)
        rw [hFiso]
        exact .delta _ _
      · exact hext

theorem imageBranch_extends {fs : List (String × JVal)}
    {a a' : SState × List Event} (h : imageBranch fs a = .ok a') :
    Extends a a' := by
  unfold imageBranch at h
  dsimp only at h
  split at h
  next infs =>
      injection h with h
      subst h
      refine extends_trans (extends_close a) ?_
      have hct : (closeBlockIfOpen a).1.curBlockType = none := close_type a
      refine extends_emit_two (c := ((closeBlockIfOpen a).1.curIndex + 1, true))
        ?_ ?_ rfl rfl rfl rfl
      · show BStep ((closeBlockIfOpen a).1.curIndex,
            (closeBlockIfOpen a).1.curBlockType.isSome) _ _
        rw [hct]
        exact .start _ _
      · show BStep _ _ ((closeBlockIfOpen a).1.curIndex + 1,
            (closeBlockIfOpen a).1.curBlockType.isSome)
        rw [hct]
        exact .stop _
  next => cases h

theorem toolBranch_extends {fs : List (String × JVal)}
    {a a' : SState × List Event} (h : toolBranch fs a = .ok a') :
    Extends a a' := by
  unfold toolBranch at h
  dsimp only at h
  split at h
  next fcs =>
      injection h with h
      subst h
      have hct : (closeBlockIfOpen a).1.curBlockType = none := close_type a
      refine extends_trans (extends_close a) ?_
      refine extends_trans
        (@extends_still (closeBlockIfOpen a).1
          {(closeBlockIfOpen a).1 with hasToolUse := true}
          (closeBlockIfOpen a).2 rfl rfl rfl rfl rfl) ?_
      refine extends_emit_three
        (c := ((closeBlockIfOpen a).1.curIndex + 1, true))
        (d := ((closeBlockIfOpen a).1.curIndex + 1, true))
        ?_ ?_ ?_ rfl rfl rfl rfl
      · show BStep ((closeBlockIfOpen a).1.curIndex,
            (closeBlockIfOpen a).1.curBlockType.isSome) _ _
        rw [hct]
        exact .start _ _
      · exact .delta _ _
      · show BStep _ _ ((closeBlockIfOpen a).1.curIndex + 1,
            (closeBlockIfOpen a).1.curBlockType.isSome)
        rw [hct]
        exact .stop _
  next => cases h

theorem processPart_extends {cfg : SCfg} {p : JVal}
    {a a' : SState × List Event} (h : processPart cfg a p = .ok a') :
    Extends a a' := by
  cases p with
  | obj fs =>
      unfold processPart at h
      dsimp only at h
      have hS := signatureStep_extends fs a
      split at h
      next => exact extends_trans hS (thoughtBranch_extends h)
      next =>
          split at h
          next => exact extends_trans hS (textBranch_extends h)
          next =>
              split at h
              next => exact extends_trans hS (imageBranch_extends h)
              next =>
                  split at h
                  next => exact extends_trans hS (toolBranch_extends h)
                  next =>
                      injection h with h
                      subst h
                      exact hS
  | null =>
      simp only [processPart] at h
      injection h with h
      subst h
      exact extends_refl _
  | bool b =>
      simp only [processPart] at h
      injection h with h
      subst h
      exact extends_refl _
  | int n =>
      simp only [processPart] at h
      injection h with h
      subst h
      exact extends_refl _
  | float q =>
      simp only [processPart] at h
      injection h with h
      subst h
      exact extends_refl _
  | str s =>
      simp only [processPart] at h
      injection h with h
      subst h
      exact extends_refl _
  | arr xs =>
      simp only [processPart] at h
      injection h with h
      subst h
      exact extends_refl _

theorem foldlM_extends {cfg : SCfg} : ∀ (ps : List JVal)
    {a a' : SState × List Event},
    ps.foldlM (processPart cfg) a = .ok a' → Extends a a' := by
  intro ps
  induction ps with
  | nil =>
      intro a a' h
      injection h with h
      subst h
      exact extends_refl _
  | cons p ps ih =>
      intro a a' h
      rw [List.foldlM_cons] at h
      cases hp : processPart cfg a p with
      | error e =>
          rw [hp] at h
          cases h
      | ok a1 =>
          rw [hp] at h
          exact extends_trans (processPart_extends hp) (ih h)

end StreamPartSpec

section StreamLineSpec

theorem send_sent {st : SState} {out : List Event} {t : Int}
    (h : st.msgStartSent = true) : sendMessageStart t (st, out) = (st, out) := by
  simp [sendMessageStart, h]

theorem send_unsent {st : SState} {out : List Event} {t : Int}
    (h : st.msgStartSent = false) :
    sendMessageStart t (st, out) =
      ({st with msgStartSent := true, pending := []},
        out ++ Event.messageStart t :: st.pending) := by
  simp [sendMessageStart, h]

theorem inv_congr {st st' : SState} {out : List Event} (hI : SInv (st, out))
    (hcur : cursor st' = cursor st)
    (hsent : st'.msgStartSent = st.msgStartSent)
    (hpend : st'.pending = st.pending) : SInv (st', out) := by
  obtain ⟨evs, htr, hp, hq⟩ := hI
  refine ⟨evs, by rw [hcur]; exact htr, ?_, ?_⟩
  · intro hf
    obtain ⟨h1, t, h2⟩ := hp (hsent.symm.trans hf)
    exact ⟨hpend.trans h1, t, h2⟩
  · intro hf
    obtain ⟨h1, h2⟩ := hq (hsent.symm.trans hf)
    exact ⟨h1, hpend.trans h2⟩

theorem inv_send {a : SState × List Event} {t : Int} (hI : SInv a) :
    SInv (sendMessageStart t a) := by
  obtain ⟨st, out⟩ := a
  cases hs : st.msgStartSent with
  | true => rw [send_sent hs]; exact hI
  | false =>
      rw [send_unsent hs]
      obtain ⟨evs, htr, hp, hq⟩ := hI
      obtain ⟨ho, hpe⟩ := hq hs
      refine ⟨evs, htr, ?_, ?_⟩
      · intro _
        refine ⟨rfl, t, ?_⟩
        show out ++ Event.messageStart t :: st.pending =
          Event.messageStart t :: evs
        have ho' : out = [] := ho
        have hpe' : st.pending = evs := hpe
        rw [ho', hpe']
        rfl
      · intro hf
        simp at hf

theorem send_msgStartSent {a : SState × List Event} {t : Int} :
    (sendMessageStart t a).1.msgStartSent = true := by
  obtain ⟨st, out⟩ := a
  cases hs : st.msgStartSent with
  | true => rw [send_sent hs]; exact hs
  | false => rw [send_unsent hs]

theorem capturePrompt_spec {u : List (String × JVal)} {st st' : SState}
    (h : capturePrompt u st = .ok st') :
    st'.curBlockType = st.curBlockType ∧ st'.curIndex = st.curIndex ∧
    st'.msgStartSent = st.msgStartSent ∧ st'.pending = st.pending ∧
    st'.thinkBuffer = st.thinkBuffer ∧ st'.hasToolUse = st.hasToolUse ∧
    st'.finishReason = st.finishReason ∧
    ((st'.hasInputTokens = st.hasInputTokens ∧
        st'.inputTokens = st.inputTokens) ∨
      (dhas u "promptTokenCount" = true ∧ st'.hasInputTokens = true ∧
        pyToInt (orElseJ (dget u "promptTokenCount" (.int 0)) (.int 0)) =
          some st'.inputTokens)) := by
  unfold capturePrompt at h
  split at h
  next hin =>
      split at h
      next n hn =>
          injection h with h
          subst h
          exact ⟨rfl, rfl, rfl, rfl, rfl, rfl, rfl, .inr ⟨hin, rfl, hn⟩⟩
      next => cases h
  next =>
      injection h with h
      subst h
      exact ⟨rfl, rfl, rfl, rfl, rfl, rfl, rfl, .inl ⟨rfl, rfl⟩⟩

theorem captureCandidates_spec {u : List (String × JVal)} {st st' : SState}
    (h : captureCandidates u st = .ok st') :
    st'.curBlockType = st.curBlockType ∧ st'.curIndex = st.curIndex ∧
    st'.msgStartSent = st.msgStartSent ∧ st'.pending = st.pending ∧
    st'.thinkBuffer = st.thinkBuffer ∧ st'.hasToolUse = st.hasToolUse ∧
    st'.finishReason = st.finishReason ∧
    st'.hasInputTokens = st.hasInputTokens ∧
    st'.inputTokens = st.inputTokens := by
  unfold captureCandidates at h
  split at h
  next =>
      split at h
      next n hn =>
          injection h with h
          subst h
          exact ⟨rfl, rfl, rfl, rfl, rfl, rfl, rfl, rfl, rfl⟩
      next => cases h
  next =>
      injection h with h
      subst h
      exact ⟨rfl, rfl, rfl, rfl, rfl, rfl, rfl, rfl, rfl⟩

theorem captureUsage_spec {u : List (String × JVal)} {st st' : SState}
    (h : captureUsage u st = .ok st') :
    st'.curBlockType = st.curBlockType ∧ st'.curIndex = st.curIndex ∧
    st'.msgStartSent = st.msgStartSent ∧ st'.pending = st.pending ∧
    st'.thinkBuffer = st.thinkBuffer ∧ st'.hasToolUse = st.hasToolUse ∧
    st'.finishReason = st.finishReason ∧
    ((st'.hasInputTokens = st.hasInputTokens ∧
        st'.inputTokens = st.inputTokens) ∨
      (dhas u "promptTokenCount" = true ∧ st'.hasInputTokens = true ∧
        pyToInt (orElseJ (dget u "promptTokenCount" (.int 0)) (.int 0)) =
          some st'.inputTokens)) := by
  unfold captureUsage at h
  split at h
  next => cases h
  next st1 hst1 =>
      obtain ⟨b1, i1, s1, p1, t1, u1, f1, tok1⟩ := capturePrompt_spec hst1
      obtain ⟨b2, i2, s2, p2, t2, u2, f2, hi2, ii2⟩ := captureCandidates_spec h
      refine ⟨b2.trans b1, i2.trans i1, s2.trans s1, p2.trans p1,
        t2.trans t1, u2.trans u1, f2.trans f1, ?_⟩
      rcases tok1 with ⟨ha, hb⟩ | ⟨ha, hb, hc⟩
      · exact .inl ⟨hi2.trans ha, ii2.trans hb⟩
      · exact .inr ⟨ha, hi2.trans hb, by rw [hc, ii2]⟩

end StreamLineSpec

section StreamRunInv

theorem processLine_inv {cfg : SCfg} {a : SState × List Event} {l : Line}
    {r : SState × List Event × Bool}
    (hI : SInv a) (h : processLine cfg a l = .ok r) : SInv (r.1, r.2.1) := by
  cases l with
  | other =>
      simp only [processLine] at h
      injection h with h
      subst h
      exact hI
  | bad =>
      simp only [processLine] at h
      injection h with h
      subst h
      exact hI
  | done =>
      simp only [processLine] at h
      injection h with h
      subst h
      exact hI
  | data j =>
      cases j with
      | obj jfs =>
          simp only [processLine] at h
          split at h
          next rfs hrfs =>
              split at h
              next c0 cs hcs =>
                  split at h
                  next cfs hcfs =>
                      split at h
                      next ctfs hctfs =>
                          split at h
                          next e hparts => cases h
                          next parts hparts =>
                              split at h
                              next e hcap => cases h
                              next stc hcap =>
                                  obtain ⟨b1, i1, s1, p1, _, _, _, _⟩ :=
                                    captureUsage_spec hcap
                                  have hI2 : SInv (stc, a.2) := by
                                    refine inv_congr hI ?_ s1 p1
                                    simp [cursor, b1, i1]
                                  split at h
                                  next e hfold => cases h
                                  next acc2 hfold =>
                                      have hI3 :
                                          SInv (if stc.hasInputTokens &&
                                              !stc.msgStartSent then
                                            sendMessageStart stc.inputTokens
                                              (stc, a.2)
                                          else (stc, a.2)) := by
                                        split
                                        · exact inv_send hI2
                                        · exact hI2
                                      have hI4 :=
                                        inv_extends hI3
                                          (foldlM_extends _ hfold)
                                      split at h
                                      next =>
                                          injection h with h
                                          subst h
                                          exact inv_congr hI4 rfl rfl rfl
                                      next =>
                                          injection h with h
                                          subst h
                                          exact hI4
                      next => cases h
                  next => cases h
              next => cases h
          next => cases h
      | null => cases h
      | bool b => cases h
      | int n => cases h
      | float q => cases h
      | str s => cases h
      | arr xs => cases h

theorem runLines_inv {cfg : SCfg} : ∀ (lines : List Line)
    {a r : SState × List Event},
    SInv a → runLines cfg a lines = .ok r → SInv r := by
  intro lines
  induction lines with
  | nil =>
      intro a r hI h
      injection h with h
      subst h
      exact hI
  | cons l rest ih =>
      intro a r hI h
      simp only [runLines] at h
      split at h
      next e hpl => cases h
      next st out brk hpl =>
          have hI2 := processLine_inv hI hpl
          split at h
          next =>
              injection h with h
              subst h
              exact hI2
          next => exact ih hI2 h

end StreamRunInv

section StreamEpilogue

theorem emit_sent_p {p : SState × List Event} {e : Event}
    (h : p.1.msgStartSent = true) : emit e p = (p.1, p.2 ++ [e]) := by
  obtain ⟨st, out⟩ := p
  exact emit_sent h

theorem send_unsent_p {p : SState × List Event} {t : Int}
    (h : p.1.msgStartSent = false) :
    sendMessageStart t p =
      ({p.1 with msgStartSent := true, pending := []},
        p.2 ++ Event.messageStart t :: p.1.pending) := by
  obtain ⟨st, out⟩ := p
  exact send_unsent h

theorem emit_two_sent {p : SState × List Event} {e1 e2 : Event}
    (h : p.1.msgStartSent = true) :
    (emit e2 (emit e1 p)).2 = p.2 ++ [e1, e2] := by
  obtain ⟨st, out⟩ := p
  rw [emit_sent h, emit_sent h]
  simp

theorem send_then_emit_two {p : SState × List Event} {e1 e2 : Event} {t : Int}
    (h : p.1.msgStartSent = false) :
    (emit e2 (emit e1 (sendMessageStart t p))).2 =
      (p.2 ++ Event.messageStart t :: p.1.pending) ++ [e1, e2] := by
  obtain ⟨st, out⟩ := p
  rw [send_unsent h]
  have h1 : ({st with msgStartSent := true, pending := []} :
      SState).msgStartSent = true := rfl
  rw [emit_sent h1, emit_sent h1]
  simp

theorem ensure_sent {cfg : SCfg} {a : SState × List Event}
    (h : a.1.msgStartSent = true) : ensureStart cfg a = a := by
  simp [ensureStart, h]

theorem ensure_unsent {cfg : SCfg} {a : SState × List Event}
    (h : a.1.msgStartSent = false) :
    ensureStart cfg a = sendMessageStart (clampedInitial cfg) a := by
  simp [ensureStart, h]

theorem extends_flushFinal (a : SState × List Event) :
    Extends a (flushBufferFinal a) := by
  unfold flushBufferFinal
  dsimp only
  split
  next hbuf =>
      refine extends_trans (extends_close a)
        (extends_trans (extends_openText (close_type a))
          (extends_emit_one ?_ rfl rfl rfl rfl))
      show BStep ((openTextBlock (closeBlockIfOpen a)).1.curIndex,
          (openTextBlock (closeBlockIfOpen a)).1.curBlockType.isSome) _
        ((openTextBlock (closeBlockIfOpen a)).1.curIndex,
          (openTextBlock (closeBlockIfOpen a)).1.curBlockType.isSome)
      rw [openText_type]
      exact .delta _ _
  next => exact extends_refl _

theorem epilogue_spec {cfg : SCfg} {a : SState × List Event} (hI : SInv a) :
    ∃ t body,
      epilogue cfg a = Event.messageStart t :: (body ++
        [Event.messageDelta (stopReasonOf a.1) (finalInTokens cfg a.1)
          (finalOutTokens a.1), Event.messageStop]) ∧
      Body 0 body ∧
      (a.1.msgStartSent = false → t = clampedInitial cfg) ∧
      (∀ u rest, a.2 = Event.messageStart u :: rest → t = u) := by
  have hE2 : Extends a (closeBlockIfOpen (flushBufferFinal a)) :=
    extends_trans (extends_flushFinal a) (extends_close _)
  have hI2 : SInv (closeBlockIfOpen (flushBufferFinal a)) :=
    inv_extends hI hE2
  obtain ⟨evs, htr, hp, hq⟩ := hI2
  obtain ⟨evs1, htr1, hsent1, _, _, hpp1, hqq1⟩ := hE2
  have ht : (closeBlockIfOpen (flushBufferFinal a)).1.curBlockType = none :=
    close_type _
  have htr' : BTrace (-1, false) evs
      ((closeBlockIfOpen (flushBufferFinal a)).1.curIndex, false) := by
    unfold cursor at htr
    rw [ht] at htr
    exact htr
  have hbody : Body 0 evs := by
    have hb := btrace_body htr'
    have h0 : (-1 : Int) + 1 = 0 := by norm_num
    rw [h0] at hb
    exact hb
  cases hs : a.1.msgStartSent with
  | true =>
      have hs2 : (closeBlockIfOpen (flushBufferFinal a)).1.msgStartSent =
          true := hsent1.trans hs
      obtain ⟨hpend2, t, hout2⟩ := hp hs2
      refine ⟨t, evs, ?_, hbody, ?_, ?_⟩
      · simp only [epilogue]
        rw [ensure_sent hs2, emit_two_sent hs2]
        rw [hout2]
        simp
      · intro hf
        cases hf
      · intro u rest hu
        obtain ⟨_, hP2⟩ := hpp1 hs
        rw [hu, hout2] at hP2
        simp only [List.cons_append] at hP2
        exact Event.messageStart.inj (List.head_eq_of_cons_eq hP2)
  | false =>
      have hs2 : (closeBlockIfOpen (flushBufferFinal a)).1.msgStartSent =
          false := hsent1.trans hs
      obtain ⟨hout2, hpend2⟩ := hq hs2
      refine ⟨clampedInitial cfg, evs, ?_, hbody, fun _ => rfl, ?_⟩
      · simp only [epilogue]
        rw [ensure_unsent hs2, send_then_emit_two hs2]
        rw [hout2, hpend2]
        simp
      · intro u rest hu
        obtain ⟨_, _, _, hq0⟩ := hI
        have h0 := (hq0 hs).1
        rw [hu] at h0
        cases h0

end StreamEpilogue

section ClaimC1

theorem sinv_init : SInv (({} : SState), ([] : List Event)) := by
  refine ⟨[], .nil _, ?_, ?_⟩
  · intro hf
    cases hf
  · intro _
    exact ⟨rfl, rfl⟩

/-- **C1.** For every finite upstream SSE line sequence that the streaming
translator consumes without raising an exception, the emitted event sequence
is exactly one `message_start`, followed by a body of content blocks in which
each `content_block_start(i)` is followed by zero or more
`content_block_delta(i)` and exactly one `content_block_stop(i)` before any
later block, with indices strictly increasing and dense from 0 (`Body 0`),
followed by exactly one `message_delta` and exactly one `message_stop`. -/
theorem c1_stream_grammar {cfg : SCfg} {lines : List Line} {out : List Event}
    (h : translateStream cfg lines = .ok out) :
    ∃ t body s i o, out = Event.messageStart t :: (body ++
      [Event.messageDelta s i o, Event.messageStop]) ∧ Body 0 body := by
  unfold translateStream at h
  split at h
  next => cases h
  next r hr =>
      injection h with h
      subst h
      obtain ⟨t, body, heq, hbody, _, _⟩ :=
        epilogue_spec (runLines_inv lines sinv_init hr)
      exact ⟨t, body, _, _, _, heq, hbody⟩

def streamCfgW : SCfg := ⟨3, true, false⟩

def streamLineHiW : Line := .data (.obj
  [("response", .obj
    [("candidates", .arr [.obj
      [("content", .obj [("parts", .arr [.obj [("text", .str "Hi")]])])]]),
     ("usageMetadata", .obj [("promptTokenCount", .int 5)])])])

def streamLineStopW : Line := .data (.obj
  [("response", .obj
    [("candidates", .arr [.obj
      [("content", .obj [("parts", .arr [])]),
       ("finishReason", .str "STOP")]]),
     ("usageMetadata", .obj [("promptTokenCount", .int 7)])])])

theorem c1_stream_grammar_witness :
    ∃ t body s i o,
      ([Event.messageStart 5, Event.blockStart 0 .text,
        Event.blockDelta 0 (.textD (.str "Hi")), Event.blockStop 0,
        Event.messageDelta "end_turn" 7 0, Event.messageStop] : List Event) =
        Event.messageStart t :: (body ++
          [Event.messageDelta s i o, Event.messageStop]) ∧ Body 0 body :=
  @c1_stream_grammar streamCfgW [streamLineHiW, streamLineStopW]
    [Event.messageStart 5, Event.blockStart 0 .text,
      Event.blockDelta 0 (.textD (.str "Hi")), Event.blockStop 0,
      Event.messageDelta "end_turn" 7 0, Event.messageStop] rfl

end ClaimC1

section ClaimC10

/-- The classification of streaming.py lines 209-225: a line survives to the
state machine exactly when it starts with `"data: "` and its payload either
is `"[DONE]"` or parses as JSON. -/
def isRealLine : Line → Bool
  | .other => false
  | .bad => false
  | .done => true
  | .data _ => true

theorem runLines_filter {cfg : SCfg} : ∀ (lines : List Line) (st : SState)
    (out : List Event),
    runLines cfg (st, out) lines =
      runLines cfg (st, out) (lines.filter isRealLine) := by
  intro lines
  induction lines with
  | nil => intro st out; rfl
  | cons l rest ih =>
      intro st out
      cases l with
      | other =>
          have h1 : runLines cfg (st, out) (Line.other :: rest) =
              runLines cfg (st, out) rest := rfl
          rw [h1, ih]
          rfl
      | bad =>
          have h1 : runLines cfg (st, out) (Line.bad :: rest) =
              runLines cfg (st, out) rest := rfl
          rw [h1, ih]
          rfl
      | done => rfl
      | data j =>
          show runLines cfg (st, out) (Line.data j :: rest) =
            runLines cfg (st, out) (Line.data j :: rest.filter isRealLine)
          simp only [runLines]
          cases hp : processLine cfg (st, out) (.data j) with
          | error e => rfl
          | ok r =>
              obtain ⟨st', out', brk⟩ := r
              cases brk with
              | true => rfl
              | false =>
                  simp only [if_neg]
                  exact ih st' out'

/-- **C10.** A line that does not begin with `"data: "` (`Line.other`) or
whose payload fails to parse as JSON (`Line.bad`) produces no event and no
error and leaves the machine state untouched, and the whole translation of a
stream equals the translation of the stream with all such lines removed —
in particular the normal `message_delta`/`message_stop` epilogue is still
produced. -/
theorem c10_unparseable_lines_skipped (cfg : SCfg) (lines : List Line) :
    (∀ st out, processLine cfg (st, out) Line.bad = .ok (st, out, false)) ∧
    (∀ st out, processLine cfg (st, out) Line.other = .ok (st, out, false)) ∧
    translateStream cfg lines = translateStream cfg
      (lines.filter isRealLine) := by
  refine ⟨fun st out => rfl, fun st out => rfl, ?_⟩
  unfold translateStream
  rw [runLines_filter lines]

end ClaimC10

section ClaimC2Defs

/-- The `promptTokenCount` value a data line would hand to the usage capture
(the `usage.get("promptTokenCount", 0) or 0` of streaming.py line 236),
`none` when the line never reaches the capture with that key present. -/
def promptValue (l : Line) : Option JVal :=
  match l with
  | .data (.obj jfs) =>
      (match orElseJ (dget jfs "response" (.obj [])) (.obj []) with
      | .obj rfs =>
          (match orElseJ (dget rfs "candidates" (.arr []))
              (.arr [.obj []]) with
          | .arr (c0 :: _) =>
              (match orElseJ c0 (.obj []) with
              | .obj cfs =>
                  if dhas (pick_usage_metadata rfs cfs) "promptTokenCount" then
                    some (orElseJ (dget (pick_usage_metadata rfs cfs)
                      "promptTokenCount" (.int 0)) (.int 0))
                  else none
              | _ => none)
          | _ => none)
      | _ => none)
  | _ => none

/-- The line reports no prompt token count, or reports one that `int()`
converts to `v`. -/
def LineOk (v : Int) (l : Line) : Prop :=
  promptValue l = none ∨
    ∃ jv, promptValue l = some jv ∧ pyToInt jv = some v

/-- The token bookkeeping invariant at line boundaries: the captured input
tokens (when any) equal `v`, `message_start` has been sent exactly when a
count was captured, and any `message_start` at the head of the output
carries `v`. -/
def TokInv (v : Int) (a : SState × List Event) : Prop :=
  (a.1.hasInputTokens = true → a.1.inputTokens = v) ∧
  a.1.msgStartSent = a.1.hasInputTokens ∧
  (∀ t rest, a.2 = Event.messageStart t :: rest → t = v)

theorem tok_extends {v : Int} {a a' : SState × List Event}
    (hI : SInv a) (hT : TokInv v a) (hE : Extends a a') : TokInv v a' := by
  obtain ⟨evs1, _, hs1, hh1, hv1, hp1, hq1⟩ := hE
  obtain ⟨t1, t2, t3⟩ := hT
  refine ⟨?_, ?_, ?_⟩
  · intro hf
    rw [hv1]
    exact t1 (hh1.symm.trans hf)
  · rw [hs1, hh1]
    exact t2
  · intro t rest hout
    cases hsa : a.1.msgStartSent with
    | false =>
        obtain ⟨ho, _⟩ := hq1 hsa
        rw [ho] at hout
        exact t3 t rest hout
    | true =>
        obtain ⟨_, ho⟩ := hp1 hsa
        obtain ⟨evs0, _, hp0, _⟩ := hI
        obtain ⟨_, t0, hout0⟩ := hp0 hsa
        rw [hout0] at ho
        rw [ho] at hout
        simp only [List.cons_append] at hout
        have h01 : t0 = t :=
          Event.messageStart.inj (List.head_eq_of_cons_eq hout)
        rw [← h01]
        exact t3 t0 evs0 hout0

end ClaimC2Defs

section ClaimC2Line

theorem processLine_tok {cfg : SCfg} {v : Int} {a : SState × List Event}
    {l : Line} {r : SState × List Event × Bool}
    (hI : SInv a) (hT : TokInv v a) (hL : LineOk v l)
    (h : processLine cfg a l = .ok r) : TokInv v (r.1, r.2.1) := by
  cases l with
  | other =>
      simp only [processLine] at h
      injection h with h
      subst h
      exact hT
  | bad =>
      simp only [processLine] at h
      injection h with h
      subst h
      exact hT
  | done =>
      simp only [processLine] at h
      injection h with h
      subst h
      exact hT
  | data j =>
      cases j with
      | obj jfs =>
          simp only [processLine] at h
          split at h
          next rfs hrfs =>
              split at h
              next c0 cs hcs =>
                  split at h
                  next cfs hcfs =>
                      split at h
                      next ctfs hctfs =>
                          split at h
                          next e hparts => cases h
                          next parts hparts =>
                              split at h
                              next e hcap => cases h
                              next stc hcap =>
                                  obtain ⟨b1, i1, s1, p1, _, _, _, tok1⟩ :=
                                    captureUsage_spec hcap
                                  have hI2 : SInv (stc, a.2) := by
                                    refine inv_congr hI ?_ s1 p1
                                    simp [cursor, b1, i1]
                                  have hpv : promptValue (Line.data (.obj jfs)) =
                                      (if dhas (pick_usage_metadata rfs cfs)
                                          "promptTokenCount" then
                                        some (orElseJ (dget
                                          (pick_usage_metadata rfs cfs)
                                          "promptTokenCount" (.int 0)) (.int 0))
                                      else none) := by
                                    simp only [promptValue, hrfs, hcs, hcfs]
                                  have hset : ∀ (hpy : pyToInt (orElseJ (dget
                                      (pick_usage_metadata rfs cfs)
                                      "promptTokenCount" (.int 0)) (.int 0)) =
                                        some stc.inputTokens)
                                      (hdh : dhas (pick_usage_metadata rfs cfs)
                                        "promptTokenCount" = true),
                                      stc.inputTokens = v := by
                                    intro hpy hdh
                                    rcases hL with hnone | ⟨jv, hjv, hint⟩
                                    · rw [hpv, if_pos hdh] at hnone
                                      cases hnone
                                    · rw [hpv, if_pos hdh] at hjv
                                      injection hjv with hjv
                                      rw [← hjv, hpy] at hint
                                      exact Option.some.inj hint
                                  have hval : stc.hasInputTokens = true →
                                      stc.inputTokens = v := by
                                    intro hf
                                    rcases tok1 with ⟨hhu, hiu⟩ |
                                      ⟨hdh, hhs, hpy⟩
                                    · rw [hiu]
                                      exact hT.1 (hhu.symm.trans hf)
                                    · exact hset hpy hdh
                                  have hTA : TokInv v
                                      (if stc.hasInputTokens &&
                                          !stc.msgStartSent then
                                        sendMessageStart stc.inputTokens
                                          (stc, a.2)
                                      else (stc, a.2)) := by
                                    by_cases hb : (stc.hasInputTokens &&
                                        !stc.msgStartSent) = true
                                    · rw [if_pos hb]
                                      rw [Bool.and_eq_true] at hb
                                      obtain ⟨hbh, hbs⟩ := hb
                                      have hsf : stc.msgStartSent = false := by
                                        simpa using hbs
                                      rw [send_unsent hsf]
                                      have ha2 : a.2 = [] := by
                                        obtain ⟨_, _, _, hq0⟩ := hI
                                        exact (hq0 (s1.symm.trans hsf)).1
                                      refine ⟨fun _ => hval hbh, ?_, ?_⟩
                                      · show true = stc.hasInputTokens
                                        exact hbh.symm
                                      · intro t rest heq
                                        rw [ha2] at heq
                                        simp only [List.nil_append] at heq
                                        have := List.head_eq_of_cons_eq heq
                                        have h2 := Event.messageStart.inj this
                                        rw [← h2]
                                        exact hval hbh
                                    · rw [if_neg hb]
                                      have hb' : (stc.hasInputTokens &&
                                          !stc.msgStartSent) = false :=
                                        Bool.eq_false_iff.mpr hb
                                      refine ⟨hval, ?_, hT.2.2⟩
                                      by_cases hhb : stc.hasInputTokens = true
                                      · rw [hhb] at hb'
                                        simp only [Bool.true_and,
                                          Bool.not_eq_false'] at hb'
                                        show stc.msgStartSent =
                                          stc.hasInputTokens
                                        rw [hb', hhb]
                                      · have hhb' : stc.hasInputTokens =
                                            false := Bool.eq_false_iff.mpr hhb
                                        rcases tok1 with ⟨hhu, _⟩ |
                                          ⟨_, hhs, _⟩
                                        · show stc.msgStartSent =
                                            stc.hasInputTokens
                                          rw [s1, hT.2.1, ← hhu]
                                        · rw [hhs] at hhb'
                                          cases hhb'
                                  have hIA : SInv
                                      (if stc.hasInputTokens &&
                                          !stc.msgStartSent then
                                        sendMessageStart stc.inputTokens
                                          (stc, a.2)
                                      else (stc, a.2)) := by
                                    split
                                    · exact inv_send hI2
                                    · exact hI2
                                  split at h
                                  next e hfold => cases h
                                  next acc2 hfold =>
                                      have hT4 := tok_extends hIA hTA
                                        (foldlM_extends _ hfold)
                                      split at h
                                      next =>
                                          injection h with h
                                          subst h
                                          exact hT4
                                      next =>
                                          injection h with h
                                          subst h
                                          exact hT4
                      next => cases h
                  next => cases h
              next => cases h
          next => cases h
      | null => cases h
      | bool b => cases h
      | int n => cases h
      | float q => cases h
      | str s => cases h
      | arr xs => cases h

theorem runLines_tok {cfg : SCfg} {v : Int} : ∀ (lines : List Line)
    {a r : SState × List Event},
    SInv a → TokInv v a → (∀ l ∈ lines, LineOk v l) →
    runLines cfg a lines = .ok r → TokInv v r := by
  intro lines
  induction lines with
  | nil =>
      intro a r hI hT _ h
      injection h with h
      subst h
      exact hT
  | cons l rest ih =>
      intro a r hI hT hL h
      simp only [runLines] at h
      split at h
      next e hpl => cases h
      next st out brk hpl =>
          have hI2 := processLine_inv hI hpl
          have hT2 := processLine_tok hI hT (hL l (by simp)) hpl
          split at h
          next =>
              injection h with h
              subst h
              exact hT2
          next =>
              refine ih hI2 hT2 ?_ h
              intro l2 hl2
              exact hL l2 (by simp [hl2])

end ClaimC2Line

section ClaimC2

/-- **C2 counterexample.**  A stream whose first chunk reports
`promptTokenCount = 5` (sending `message_start` with 5) and whose final
chunk re-reports `promptTokenCount = 7` completes normally, but the final
`message_delta` carries `usage.input_tokens = 7` while `message_start`
carried 5 — the two values the claim requires to be equal differ. -/
theorem c2_counterexample :
    translateStream streamCfgW [streamLineHiW, streamLineStopW] =
      .ok [Event.messageStart 5, Event.blockStart 0 .text,
        Event.blockDelta 0 (.textD (.str "Hi")), Event.blockStop 0,
        Event.messageDelta "end_turn" 7 0, Event.messageStop] ∧
    (5 : Int) ≠ 7 :=
  ⟨rfl, by decide⟩

/-- **C2 (amended).**  When every upstream line reports either no
`promptTokenCount` at all or one converting to the same value `v ≥ 0`, the
completed stream's final `message_delta` carries `usage.input_tokens` equal
to the value carried by `message_start`, and that value is non-negative.
(Without that hypothesis the code keeps the *last* reported count for
`message_delta` while `message_start` keeps the count at send time, and a
negative reported count is passed through unclamped.) -/
theorem c2_input_tokens_amended {cfg : SCfg} {lines : List Line}
    {out : List Event} {v : Int}
    (h : translateStream cfg lines = .ok out)
    (hl : ∀ l ∈ lines, LineOk v l) (hv : 0 ≤ v) :
    ∃ t body s o, out = Event.messageStart t :: (body ++
      [Event.messageDelta s t o, Event.messageStop]) ∧ 0 ≤ t := by
  unfold translateStream at h
  split at h
  next => cases h
  next r hr =>
      injection h with h
      subst h
      have hinit : TokInv v (({} : SState), ([] : List Event)) := by
        refine ⟨?_, rfl, ?_⟩
        · intro hf
          cases hf
        · intro t rest hf
          cases hf
      have hIr := runLines_inv lines sinv_init hr
      have hTr := runLines_tok lines sinv_init hinit hl hr
      obtain ⟨t, body, heq, hbody, hts, hth⟩ := epilogue_spec hIr
      cases hhas : r.1.hasInputTokens with
      | true =>
          have hsent : r.1.msgStartSent = true := by rw [hTr.2.1, hhas]
          obtain ⟨evs0, _, hp0, _⟩ := hIr
          obtain ⟨_, t0, hout0⟩ := hp0 hsent
          have h1 : t = t0 := hth t0 _ hout0
          have h2 : t0 = v := hTr.2.2 t0 _ hout0
          have h3 : finalInTokens cfg r.1 = v := by
            unfold finalInTokens
            rw [hhas, if_pos rfl]
            exact hTr.1 hhas
          refine ⟨v, body, stopReasonOf r.1, finalOutTokens r.1, ?_, hv⟩
          rw [heq, h3, h1, h2]
      | false =>
          have hsent : r.1.msgStartSent = false := by rw [hTr.2.1, hhas]
          have h3 : finalInTokens cfg r.1 = clampedInitial cfg := by
            unfold finalInTokens
            rw [hhas, if_neg (by simp)]
          have h1 : t = clampedInitial cfg := hts hsent
          refine ⟨clampedInitial cfg, body,
            stopReasonOf r.1, finalOutTokens r.1, ?_, ?_⟩
          · rw [heq, h3, h1]
          · unfold clampedInitial
            exact le_max_left 0 _

theorem c2_input_tokens_amended_witness :
    ∃ t body s o,
      ([Event.messageStart 5, Event.blockStart 0 .text,
        Event.blockDelta 0 (.textD (.str "Hi")), Event.blockStop 0,
        Event.messageDelta "end_turn" 5 0, Event.messageStop] : List Event) =
        Event.messageStart t :: (body ++
          [Event.messageDelta s t o, Event.messageStop]) ∧ 0 ≤ t :=
  @c2_input_tokens_amended streamCfgW [streamLineHiW]
    [Event.messageStart 5, Event.blockStart 0 .text,
      Event.blockDelta 0 (.textD (.str "Hi")), Event.blockStop 0,
      Event.messageDelta "end_turn" 5 0, Event.messageStop] 5 rfl
    (by
      intro l hl
      simp only [List.mem_singleton] at hl
      subst hl
      exact .inr ⟨.int 5, rfl, rfl⟩)
    (by decide)

end ClaimC2
